import Mathlib

/-!
Verification development for the convex-hull library `convhull_3d.h`
(3-D and N-D quickhull builders plus the Delaunay-by-lifting reduction).

The C code is shallowly embedded over an arbitrary `LinearOrderedField K`
(the C `CH_FLOAT` arithmetic read as exact field arithmetic).  Flat C arrays
become Lean lists indexed with `List.getD _ _ 0` (out-of-range reads yield
the default `0`, mirroring how the embedding totalises the partial reads of C;
every such spot is commented).  The only irrational operation of the library,
`sqrt` used to normalise plane equations, is abstracted as an explicit
function parameter `sq : K → K`; theorems that depend on it being a square
root take that as a hypothesis, all other theorems hold for every `sq`.
The process-wide random source `rand()/RAND_MAX` is abstracted as an
explicit stream `r : ℕ → K`, consumed in the same order as the C code
draws from `rand()`.
-/

namespace Convhull

variable {K : Type} [LinearOrderedField K]

/-- C `det_4x4` (convhull_3d.h lines 333-343): closed-form determinant of a
row-major 4×4 matrix stored flat in `m[0..15]`. -/
def det_4x4 (m : List K) : K :=
  let g := fun i : ℕ => m.getD i 0
  g 3 * g 6 * g 9 * g 12 - g 2 * g 7 * g 9 * g 12 - g 3 * g 5 * g 10 * g 12 +
  g 1 * g 7 * g 10 * g 12 + g 2 * g 5 * g 11 * g 12 - g 1 * g 6 * g 11 * g 12 -
  g 3 * g 6 * g 8 * g 13 + g 2 * g 7 * g 8 * g 13 + g 3 * g 4 * g 10 * g 13 -
  g 0 * g 7 * g 10 * g 13 - g 2 * g 4 * g 11 * g 13 + g 0 * g 6 * g 11 * g 13 +
  g 3 * g 5 * g 8 * g 14 - g 1 * g 7 * g 8 * g 14 - g 3 * g 4 * g 9 * g 14 +
  g 0 * g 7 * g 9 * g 14 + g 1 * g 4 * g 11 * g 14 - g 0 * g 5 * g 11 * g 14 -
  g 2 * g 5 * g 8 * g 15 + g 1 * g 6 * g 8 * g 15 + g 2 * g 4 * g 9 * g 15 -
  g 0 * g 6 * g 9 * g 15 - g 1 * g 4 * g 10 * g 15 + g 0 * g 5 * g 10 * g 15

/-- C `createSubMatrix` (lines 346-357): from a flat row-major `N×N` matrix,
keep the entries `m[j]` with `N ≤ j < N*N` (drop row 0) and `j % N ≠ i`
(drop column `i`), in order. -/
def createSubMatrix (m : List K) (N i : ℕ) : List K :=
  ((((List.range (N * N)).drop N).filter (fun j => j % N != i)).map
    (fun j => m.getD j 0))

/-- C `det_NxN` (lines 359-376): first-row cofactor expansion, recursive in
the dimension (`det_NxN` of a 0×0 matrix is 1).  The C running `sign`
variable starting at `+1` and flipping each iteration is `(-1)^i`. -/
def det_NxN : ℕ → List K → K
  | 0, _ => 1
  | d + 1, m =>
      ((List.range (d + 1)).map
        (fun i => (-1 : K) ^ i * m.getD i 0 * det_NxN d (createSubMatrix m (d + 1) i))).sum

/-- The row-major `d×d` matrix denoted by a flat list, for comparison of the
C determinant routines with the Mathlib `Matrix.det`. -/
def matrixOfList (d : ℕ) (m : List K) : Matrix (Fin d) (Fin d) K :=
  Matrix.of fun i j => m.getD (i * d + j) 0

theorem list_sum_map_range {M : Type} [AddCommMonoid M] (f : ℕ → M) (n : ℕ) :
    ((List.range n).map f).sum = ∑ i ∈ Finset.range n, f i := by
  induction n with
  | zero => simp
  | succ k ih => simp [List.range_succ, Finset.sum_range_succ, ih]

theorem range_mul_flatMap (k N : ℕ) :
    List.range (k * N) =
      (List.range k).flatMap (fun r => (List.range N).map (fun c => r * N + c)) := by
  induction k with
  | zero => simp
  | succ j ih =>
      rw [Nat.succ_mul, List.range_add, ih, List.range_succ, List.flatMap_append]
      simp

theorem filter_range_ne (N i : ℕ) (h : i < N) :
    (List.range N).filter (fun c => c != i) =
      List.range i ++ (List.range (N - (i + 1))).map (fun t => i + 1 + t) := by
  induction N with
  | zero => omega
  | succ n ih =>
      rw [List.range_succ, List.filter_append]
      rcases Nat.lt_succ_iff_lt_or_eq.mp h with h' | h'
      · have hni : (n != i) = true := by simpa using Nat.ne_of_gt h'
        have hfn : List.filter (fun c => c != i) [n] = [n] := by
          simp [List.filter_cons, hni]
        rw [ih h', hfn, List.append_assoc]
        congr 1
        have hn1 : n + 1 - (i + 1) = (n - (i + 1)) + 1 := by omega
        rw [hn1, List.range_succ, List.map_append]
        have : i + 1 + (n - (i + 1)) = n := by omega
        simp [this]
      · subst h'
        have hall : ∀ c ∈ List.range i, (c != i) = true := by
          intro c hc
          simpa using Nat.ne_of_lt (List.mem_range.mp hc)
        rw [List.filter_eq_self.mpr hall]
        simp

theorem getD_filter_range_ne (N i c : ℕ) (hi : i < N) (hc : c < N - 1) :
    ((List.range N).filter (fun x => x != i)).getD c 0 =
      (if c < i then c else c + 1) := by
  rw [filter_range_ne N i hi]
  by_cases h : c < i
  · rw [List.getD_append _ _ _ _ (by simpa using h)]
    rw [List.getD_eq_getElem _ _ (by simpa using h)]
    simp [h]
  · rw [List.getD_append_right _ _ _ _ (by simpa using Nat.le_of_not_lt h)]
    have hlen : c - i < N - (i + 1) := by omega
    rw [List.getD_eq_getElem _ _ (by simpa using hlen)]
    simp [h]
    omega

theorem length_flatMap_const {rows : ℕ → List K} {d : ℕ}
    (hlen : ∀ r, (rows r).length = d) (k : ℕ) :
    ((List.range k).flatMap rows).length = k * d := by
  induction k with
  | zero => simp
  | succ j ih =>
      rw [List.range_succ, List.flatMap_append, List.length_append, ih]
      simp [hlen, Nat.succ_mul]

theorem getD_flatMap_rows {rows : ℕ → List K} {k d : ℕ}
    (hlen : ∀ r, (rows r).length = d) :
    ∀ (r c : ℕ), r < k → c < d →
      (((List.range k).flatMap rows).getD (r * d + c) 0) = (rows r).getD c 0 := by
  induction k with
  | zero => intro r c hr; omega
  | succ j ih =>
      intro r c hr hc
      rcases Nat.lt_succ_iff_lt_or_eq.mp hr with h' | h'
      · rw [List.range_succ, List.flatMap_append, List.getD_append]
        · exact ih r c h' hc
        · rw [length_flatMap_const hlen]
          calc r * d + c < (r + 1) * d := by rw [Nat.succ_mul]; omega
            _ ≤ j * d := Nat.mul_le_mul_right d h'
      · subst h'
        rw [List.range_succ, List.flatMap_append,
          List.getD_append_right _ _ _ _ (by rw [length_flatMap_const hlen]; omega)]
        rw [length_flatMap_const hlen]
        simp

theorem filter_flatMap {α β : Type} (l : List α) (f : α → List β) (p : β → Bool) :
    (l.flatMap f).filter p = l.flatMap (fun a => (f a).filter p) := by
  induction l with
  | nil => simp
  | cons a t ih => simp [List.flatMap_cons, List.filter_append, ih]

theorem flatMap_map {α β γ : Type} (g : α → β) (l : List α) (f : β → List γ) :
    (l.map g).flatMap f = l.flatMap (fun a => f (g a)) := by
  induction l with
  | nil => simp
  | cons a t ih => simp [List.flatMap_cons, ih]

theorem flatMap_congr_mem {α β : Type} {l : List α} {f g : α → List β}
    (h : ∀ a ∈ l, f a = g a) : l.flatMap f = l.flatMap g := by
  induction l with
  | nil => simp
  | cons a t ih =>
      rw [List.flatMap_cons, List.flatMap_cons, h a (by simp),
        ih (fun b hb => h b (by simp [hb]))]

theorem createSubMatrix_eq_flatMap (m : List K) (d i : ℕ) :
    createSubMatrix m (d + 1) i =
      (List.range d).flatMap (fun r =>
        (((List.range (d + 1)).filter (fun c => c != i))).map
          (fun c => m.getD ((r + 1) * (d + 1) + c) 0)) := by
  unfold createSubMatrix
  have hdrop : (List.range ((d + 1) * (d + 1))).drop (d + 1) =
      (List.range d).flatMap (fun r =>
        (List.range (d + 1)).map (fun c => Nat.succ r * (d + 1) + c)) := by
    rw [range_mul_flatMap (d + 1) (d + 1)]
    nth_rewrite 1 [List.range_succ_eq_map d]
    rw [List.flatMap_cons, flatMap_map]
    refine List.drop_left' ?_
    simp
  rw [hdrop, filter_flatMap, List.map_flatMap]
  refine flatMap_congr_mem (fun a _ => ?_)
  rw [List.filter_map, List.map_map]
  have hq : ∀ c ∈ List.range (d + 1),
      ((fun j => j % (d + 1) != i) ∘ fun c => Nat.succ a * (d + 1) + c) c = (c != i) := by
    intro c hc
    have hc' : c < d + 1 := List.mem_range.mp hc
    simp only [Function.comp_apply]
    rw [Nat.mul_comm (Nat.succ a) (d + 1), Nat.mul_add_mod, Nat.mod_eq_of_lt hc']
  rw [List.filter_congr hq]
  refine List.map_congr_left (fun c _ => ?_)
  simp [Nat.succ_eq_add_one]

theorem filter_range_ne_length (N i : ℕ) (h : i < N) :
    ((List.range N).filter (fun c => c != i)).length = N - 1 := by
  rw [filter_range_ne N i h]
  simp
  omega

theorem succAbove_val {n : ℕ} (p : Fin (n + 1)) (c : Fin n) :
    ((p.succAbove c : Fin (n + 1)) : ℕ) = if (c : ℕ) < (p : ℕ) then (c : ℕ) else (c : ℕ) + 1 := by
  by_cases h : (c : ℕ) < (p : ℕ)
  · rw [Fin.succAbove_of_castSucc_lt p c (by rwa [Fin.lt_def, Fin.coe_castSucc])]
    simp [h]
  · rw [Fin.succAbove_of_le_castSucc p c (by rw [Fin.le_def, Fin.coe_castSucc]; omega)]
    simp [h]

theorem matrixOfList_createSubMatrix (m : List K) (d i : ℕ) (hi : i < d + 1) :
    matrixOfList d (createSubMatrix m (d + 1) i) =
      (matrixOfList (d + 1) m).submatrix Fin.succ (Fin.succAbove ⟨i, hi⟩) := by
  ext r c
  have hflen : ((List.range (d + 1)).filter (fun c => c != i)).length = d := by
    simpa using filter_range_ne_length (d + 1) i hi
  have hrows : ∀ r' : ℕ,
      ((((List.range (d + 1)).filter (fun c => c != i))).map
        (fun c => m.getD ((r' + 1) * (d + 1) + c) 0)).length = d := by
    intro r'; simp [hflen]
  show (createSubMatrix m (d + 1) i).getD ((r : ℕ) * d + (c : ℕ)) 0 = _
  rw [createSubMatrix_eq_flatMap, getD_flatMap_rows hrows r c r.isLt c.isLt]
  rw [List.getD_eq_getElem _ _ (by rw [hrows]; exact c.isLt), List.getElem_map]
  have hcol : ((List.range (d + 1)).filter (fun x => x != i))[(c : ℕ)] =
      (if (c : ℕ) < i then (c : ℕ) else (c : ℕ) + 1) := by
    rw [← List.getD_eq_getElem _ 0 (by rw [hflen]; exact c.isLt)]
    exact getD_filter_range_ne (d + 1) i c hi (by simpa using c.isLt)
  rw [hcol]
  show _ = m.getD (((Fin.succ r : Fin (d + 1)) : ℕ) * (d + 1) +
    ((Fin.succAbove ⟨i, hi⟩ c : Fin (d + 1)) : ℕ)) 0
  rw [succAbove_val]
  simp [Fin.val_succ]

theorem det_NxN_eq_det : ∀ (d : ℕ) (m : List K), det_NxN d m = (matrixOfList d m).det
  | 0, m => by
      rw [det_NxN]
      exact Matrix.det_fin_zero.symm
  | d + 1, m => by
      rw [det_NxN, list_sum_map_range, Matrix.det_succ_row_zero,
        ← Fin.sum_univ_eq_sum_range
          (fun i => (-1 : K) ^ i * m.getD i 0 * det_NxN d (createSubMatrix m (d + 1) i))]
      refine Finset.sum_congr rfl (fun j _ => ?_)
      rw [det_NxN_eq_det d, matrixOfList_createSubMatrix m d j j.isLt]
      have hMj : (matrixOfList (d + 1) m) 0 j = m.getD (j : ℕ) 0 := by
        simp [matrixOfList]
      rw [hMj]

theorem det_fin_four (M : Matrix (Fin 4) (Fin 4) K) : M.det =
    M 0 0 * (M 1 1 * M 2 2 * M 3 3 - M 1 1 * M 2 3 * M 3 2 - M 1 2 * M 2 1 * M 3 3
      + M 1 2 * M 2 3 * M 3 1 + M 1 3 * M 2 1 * M 3 2 - M 1 3 * M 2 2 * M 3 1)
  - M 0 1 * (M 1 0 * M 2 2 * M 3 3 - M 1 0 * M 2 3 * M 3 2 - M 1 2 * M 2 0 * M 3 3
      + M 1 2 * M 2 3 * M 3 0 + M 1 3 * M 2 0 * M 3 2 - M 1 3 * M 2 2 * M 3 0)
  + M 0 2 * (M 1 0 * M 2 1 * M 3 3 - M 1 0 * M 2 3 * M 3 1 - M 1 1 * M 2 0 * M 3 3
      + M 1 1 * M 2 3 * M 3 0 + M 1 3 * M 2 0 * M 3 1 - M 1 3 * M 2 1 * M 3 0)
  - M 0 3 * (M 1 0 * M 2 1 * M 3 2 - M 1 0 * M 2 2 * M 3 1 - M 1 1 * M 2 0 * M 3 2
      + M 1 1 * M 2 2 * M 3 0 + M 1 2 * M 2 0 * M 3 1 - M 1 2 * M 2 1 * M 3 0) := by
  rw [Matrix.det_succ_row_zero]
  simp [Fin.sum_univ_succ, Matrix.det_fin_three, Fin.succAbove, Fin.lt_def,
    show (Fin.succ 2 : Fin 4) = 3 from rfl, show ((2 : Fin 3).castSucc : Fin 4) = 2 from rfl,
    show (Fin.succ 1 : Fin 4) = 2 from rfl, show (Fin.succ 0 : Fin 4) = 1 from rfl]
  ring

theorem det_4x4_eq_det (m : List K) : det_4x4 m = (matrixOfList 4 m).det := by
  rw [det_fin_four]
  show det_4x4 m =
    m.getD 0 0 * (m.getD 5 0 * m.getD 10 0 * m.getD 15 0 - m.getD 5 0 * m.getD 11 0 * m.getD 14 0
      - m.getD 6 0 * m.getD 9 0 * m.getD 15 0 + m.getD 6 0 * m.getD 11 0 * m.getD 13 0
      + m.getD 7 0 * m.getD 9 0 * m.getD 14 0 - m.getD 7 0 * m.getD 10 0 * m.getD 13 0)
  - m.getD 1 0 * (m.getD 4 0 * m.getD 10 0 * m.getD 15 0 - m.getD 4 0 * m.getD 11 0 * m.getD 14 0
      - m.getD 6 0 * m.getD 8 0 * m.getD 15 0 + m.getD 6 0 * m.getD 11 0 * m.getD 12 0
      + m.getD 7 0 * m.getD 8 0 * m.getD 14 0 - m.getD 7 0 * m.getD 10 0 * m.getD 12 0)
  + m.getD 2 0 * (m.getD 4 0 * m.getD 9 0 * m.getD 15 0 - m.getD 4 0 * m.getD 11 0 * m.getD 13 0
      - m.getD 5 0 * m.getD 8 0 * m.getD 15 0 + m.getD 5 0 * m.getD 11 0 * m.getD 12 0
      + m.getD 7 0 * m.getD 8 0 * m.getD 13 0 - m.getD 7 0 * m.getD 9 0 * m.getD 12 0)
  - m.getD 3 0 * (m.getD 4 0 * m.getD 9 0 * m.getD 14 0 - m.getD 4 0 * m.getD 10 0 * m.getD 13 0
      - m.getD 5 0 * m.getD 8 0 * m.getD 14 0 + m.getD 5 0 * m.getD 10 0 * m.getD 12 0
      + m.getD 6 0 * m.getD 8 0 * m.getD 13 0 - m.getD 6 0 * m.getD 9 0 * m.getD 12 0)
  unfold det_4x4
  ring

/-- Entry `(i,j)` of the C local `pdiff` in `plane_3d` / `plane_nd`
(lines 389-391 and 442-444): difference of consecutive points,
`p[(i+1)*Nd+j] - p[i*Nd+j]`, where `p` is the flat `Nd×Nd` matrix whose
rows are the `Nd` input points. -/
def pdiffE (Nd : ℕ) (p : List K) (i j : ℕ) : K :=
  p.getD ((i + 1) * Nd + j) 0 - p.getD (i * Nd + j) 0

/-- The C local `pdiff_s` for cofactor `i` (lines 398-408 / 451-461): the
`(Nd-1)×(Nd-1)` row-major matrix got by deleting column `i` of `pdiff`. -/
def pdiffS (Nd : ℕ) (p : List K) (i : ℕ) : List K :=
  ((List.range (Nd - 1)).map (fun jr =>
    ((List.range Nd).filter (fun k => k != i)).map (fun k => pdiffE Nd p jr k))).flatten

/-- The determinant branch of `plane_nd` (lines 462-471): hardcoded 2×2 for
`Nd = 3` (dead, since `plane_nd` delegates to `plane_3d` first), `det_4x4`
for `Nd = 5`, else the recursive `det_NxN`. -/
def detNdSel (Nd : ℕ) (sub : List K) : K :=
  if Nd = 3 then
    sub.getD (0 * (Nd - 1) + 0) 0 * sub.getD (1 * (Nd - 1) + 1) 0
      - sub.getD (1 * (Nd - 1) + 0) 0 * sub.getD (0 * (Nd - 1) + 1) 0
  else if Nd = 5 then det_4x4 sub
  else det_NxN (Nd - 1) sub

/-- The unnormalised normal vector computed by the cofactor loop of
`plane_nd` (lines 449-474); the alternating C `sign` is `(-1)^i`. -/
def planeRawNd (Nd : ℕ) (p : List K) : List K :=
  (List.range Nd).map (fun i => (-1 : K) ^ i * detNdSel Nd (pdiffS Nd p i))

/-- The unnormalised normal vector computed by the cofactor loop of
`plane_3d` (lines 396-412): 2×2 minors of the 2×3 difference matrix, with
`pdiff_s` stored row-major as `[s00, s01, s10, s11]`, so the C determinant
`s[0][0]*s[1][1] - s[1][0]*s[0][1]` reads entries `0,3,2,1`. -/
def planeRaw3 (p : List K) : List K :=
  (List.range 3).map (fun i =>
    (-1 : K) ^ i *
      ((pdiffS 3 p i).getD 0 0 * (pdiffS 3 p i).getD 3 0
        - (pdiffS 3 p i).getD 2 0 * (pdiffS 3 p i).getD 1 0))

/-- C `plane_3d` (lines 382-422) over an abstract square-root function `sq`:
normal = cofactor vector scaled by `1 / sq (Σ cᵢ²)`, offset
`d = Σᵢ -p[i]·c[i]` over the coordinates of the first point. -/
def plane_3d (sq : K → K) (p : List K) : List K × K :=
  let craw := planeRaw3 p
  let norm_c := sq ((craw.map (fun x => x ^ 2)).sum)
  let c := craw.map (fun x => x / norm_c)
  (c, ((List.range 3).map (fun i => -(p.getD i 0 * c.getD i 0))).sum)

/-- C `plane_nd` (lines 428-484): delegates to `plane_3d` when `Nd = 3`,
otherwise the generalised cross product, normalised the same way. -/
def plane_nd (sq : K → K) (Nd : ℕ) (p : List K) : List K × K :=
  if Nd = 3 then plane_3d sq p
  else
    let craw := planeRawNd Nd p
    let norm_c := sq ((craw.map (fun x => x ^ 2)).sum)
    let c := craw.map (fun x => x / norm_c)
    (c, ((List.range Nd).map (fun i => -(p.getD i 0 * c.getD i 0))).sum)

/-- Specification-side minor: delete column `i` of the point-difference
matrix (per the spec, the "(d-1)×(d-1) cofactor obtained by deleting
point-difference column i"). -/
def minorMatrix (Nd : ℕ) (p : List K) (i : ℕ) : Matrix (Fin (Nd - 1)) (Fin (Nd - 1)) K :=
  Matrix.of fun r c => pdiffE Nd p r (if (c : ℕ) < i then (c : ℕ) else (c : ℕ) + 1)

/-- Specification-side signed cofactor, phrased with the Mathlib `Matrix.det`
rather than the determinant routines of the library. -/
def specCofactor (Nd : ℕ) (p : List K) (i : ℕ) : K :=
  (-1 : K) ^ i * (minorMatrix Nd p i).det

theorem getD_map_range (f : ℕ → K) (n i : ℕ) (h : i < n) :
    ((List.range n).map f).getD i 0 = f i := by
  rw [List.getD_eq_getElem _ _ (by simpa using h), List.getElem_map]
  simp

theorem flatten_map_eq_flatMap {α β : Type} (l : List α) (f : α → List β) :
    (l.map f).flatten = l.flatMap f := by
  induction l with
  | nil => simp
  | cons a t ih => simp [List.flatMap_cons, ih]

theorem matrixOfList_pdiffS (Nd : ℕ) (p : List K) (i : ℕ) (hi : i < Nd) :
    matrixOfList (Nd - 1) (pdiffS Nd p i) = minorMatrix Nd p i := by
  ext r c
  have hflen : ((List.range Nd).filter (fun k => k != i)).length = Nd - 1 :=
    filter_range_ne_length Nd i hi
  have hrows : ∀ jr : ℕ,
      (((List.range Nd).filter (fun k => k != i)).map (fun k => pdiffE Nd p jr k)).length
        = Nd - 1 := by
    intro jr; simp [hflen]
  show (pdiffS Nd p i).getD ((r : ℕ) * (Nd - 1) + (c : ℕ)) 0 = _
  unfold pdiffS
  rw [flatten_map_eq_flatMap, getD_flatMap_rows hrows r c r.isLt c.isLt]
  rw [List.getD_eq_getElem _ _ (by rw [hrows]; exact c.isLt), List.getElem_map]
  have hcol : ((List.range Nd).filter (fun x => x != i))[(c : ℕ)] =
      (if (c : ℕ) < i then (c : ℕ) else (c : ℕ) + 1) := by
    rw [← List.getD_eq_getElem _ 0 (by rw [hflen]; exact c.isLt)]
    exact getD_filter_range_ne Nd i c hi c.isLt
  rw [hcol]
  rfl

theorem planeRawNd_spec (Nd : ℕ) (p : List K) (i : ℕ) (hi : i < Nd)
    (hNd : Nd = 4 ∨ Nd = 5) :
    (planeRawNd Nd p).getD i 0 = specCofactor Nd p i := by
  unfold planeRawNd specCofactor
  rw [getD_map_range _ _ _ hi]
  rcases hNd with h | h
  · subst h
    rw [detNdSel, if_neg (by norm_num), if_neg (by norm_num), det_NxN_eq_det]
    exact congrArg (fun M => (-1 : K) ^ i * M.det) (matrixOfList_pdiffS 4 p i hi)
  · subst h
    rw [detNdSel, if_neg (by norm_num), if_pos rfl, det_4x4_eq_det]
    exact congrArg (fun M => (-1 : K) ^ i * M.det) (matrixOfList_pdiffS 5 p i hi)

theorem planeRaw3_spec (p : List K) (i : ℕ) (hi : i < 3) :
    (planeRaw3 p).getD i 0 = specCofactor 3 p i := by
  unfold planeRaw3 specCofactor
  rw [getD_map_range _ _ _ hi]
  have hm : matrixOfList 2 (pdiffS 3 p i) = minorMatrix 3 p i := matrixOfList_pdiffS 3 p i hi
  have h00 : (pdiffS 3 p i).getD 0 0 = minorMatrix 3 p i 0 0 := by
    rw [← hm]; rfl
  have h01 : (pdiffS 3 p i).getD 1 0 = minorMatrix 3 p i 0 1 := by
    rw [← hm]; rfl
  have h10 : (pdiffS 3 p i).getD 2 0 = minorMatrix 3 p i 1 0 := by
    rw [← hm]; rfl
  have h11 : (pdiffS 3 p i).getD 3 0 = minorMatrix 3 p i 1 1 := by
    rw [← hm]; rfl
  rw [h00, h01, h10, h11, Matrix.det_fin_two]
  ring

theorem cofactor_orth_succ (n : ℕ) (p : List K) (t : ℕ) (ht : t < n) :
    ∑ i ∈ Finset.range (n + 1), specCofactor (n + 1) p i * pdiffE (n + 1) p t i = 0 := by
  set Mt : Matrix (Fin (n + 1)) (Fin (n + 1)) K :=
    Matrix.of (fun r c =>
      if r = 0 then pdiffE (n + 1) p t (c : ℕ) else pdiffE (n + 1) p ((r : ℕ) - 1) (c : ℕ))
    with hMt
  have hdup : Mt.det = 0 := by
    refine Matrix.det_zero_of_row_eq (i := 0) (j := ⟨t + 1, by omega⟩) ?_ ?_
    · intro h
      have := congrArg Fin.val h
      simp at this
    · funext c
      simp [hMt, Fin.ext_iff]
  have hsub : ∀ j : Fin (n + 1),
      Mt.submatrix Fin.succ j.succAbove = minorMatrix (n + 1) p (j : ℕ) := by
    intro j
    ext r c
    show Mt (Fin.succ r) (j.succAbove c) = _
    simp only [hMt, Matrix.of_apply]
    rw [if_neg (by intro h; have := congrArg Fin.val h; simp [Fin.val_succ] at this)]
    rw [succAbove_val]
    simp [minorMatrix, Fin.val_succ]
  have key : (0 : K) =
      ∑ i ∈ Finset.range (n + 1),
        (-1 : K) ^ i * pdiffE (n + 1) p t i * (minorMatrix (n + 1) p i).det := by
    rw [← Fin.sum_univ_eq_sum_range
      (fun i => (-1 : K) ^ i * pdiffE (n + 1) p t i * (minorMatrix (n + 1) p i).det)]
    rw [← hdup, Matrix.det_succ_row_zero]
    refine Finset.sum_congr rfl (fun j _ => ?_)
    rw [hsub j]
    have h0 : Mt 0 j = pdiffE (n + 1) p t (j : ℕ) := by
      simp [hMt]
    rw [h0]
    congr 1
  have hcomm : ∑ i ∈ Finset.range (n + 1), specCofactor (n + 1) p i * pdiffE (n + 1) p t i =
      ∑ i ∈ Finset.range (n + 1),
        (-1 : K) ^ i * pdiffE (n + 1) p t i * (minorMatrix (n + 1) p i).det :=
    Finset.sum_congr rfl (fun i _ => by unfold specCofactor; ring)
  rw [hcomm, ← key]

theorem cofactor_orth (Nd : ℕ) (hNd : 1 ≤ Nd) (p : List K) (t : ℕ) (ht : t < Nd - 1) :
    ∑ i ∈ Finset.range Nd, specCofactor Nd p i * pdiffE Nd p t i = 0 := by
  obtain ⟨n, rfl⟩ : ∃ n, Nd = n + 1 := ⟨Nd - 1, by omega⟩
  exact cofactor_orth_succ n p t (by simpa using ht)

theorem sum_map_eq_sum_range_getD (l : List K) (f : K → K) :
    (l.map f).sum = ∑ i ∈ Finset.range l.length, f (l.getD i 0) := by
  induction l with
  | nil => simp
  | cons a tl ih =>
      rw [List.map_cons, List.sum_cons, List.length_cons, Finset.sum_range_succ']
      simp only [List.getD_cons_succ, List.getD_cons_zero]
      rw [ih]
      ring

theorem plane_normalize_spec (sq : K → K) (Nd : ℕ) (hNd : 1 ≤ Nd) (p craw : List K)
    (hlen : craw.length = Nd)
    (hcraw : ∀ i, i < Nd → craw.getD i 0 = specCofactor Nd p i)
    (S : K) (hSdef : S = ∑ i ∈ Finset.range Nd, (specCofactor Nd p i) ^ 2)
    (hS : S ≠ 0) (hsq : sq S * sq S = S) :
    (∀ i, i < Nd →
      (craw.map (fun x => x / sq ((craw.map (fun x => x ^ 2)).sum))).getD i 0 =
        specCofactor Nd p i / sq S) ∧
    (∑ i ∈ Finset.range Nd,
      ((craw.map (fun x => x / sq ((craw.map (fun x => x ^ 2)).sum))).getD i 0) ^ 2 = 1) ∧
    (∀ j, j < Nd →
      (∑ i ∈ Finset.range Nd,
        (craw.map (fun x => x / sq ((craw.map (fun x => x ^ 2)).sum))).getD i 0 *
          p.getD (j * Nd + i) 0) +
      ((List.range Nd).map (fun i =>
        -(p.getD i 0 *
          (craw.map (fun x => x / sq ((craw.map (fun x => x ^ 2)).sum))).getD i 0))).sum = 0) := by
  have hsum : (craw.map (fun x => x ^ 2)).sum = S := by
    rw [sum_map_eq_sum_range_getD, hlen, hSdef]
    exact Finset.sum_congr rfl (fun i hi => by rw [hcraw i (Finset.mem_range.mp hi)])
  have hsqnz : sq S ≠ 0 := by
    intro h
    rw [h, mul_zero] at hsq
    exact hS hsq.symm
  have hc : ∀ i, i < Nd →
      (craw.map (fun x => x / sq ((craw.map (fun x => x ^ 2)).sum))).getD i 0 =
        specCofactor Nd p i / sq S := by
    intro i hi
    rw [List.getD_eq_getElem _ _ (by rw [List.length_map, hlen]; exact hi), List.getElem_map]
    rw [hsum, ← List.getD_eq_getElem _ 0 (by rw [hlen]; exact hi), hcraw i hi]
  refine ⟨hc, ?_, ?_⟩
  · have hsq2 : ∀ i ∈ Finset.range Nd,
        ((craw.map (fun x => x / sq ((craw.map (fun x => x ^ 2)).sum))).getD i 0) ^ 2 =
          (specCofactor Nd p i) ^ 2 / (sq S * sq S) := by
      intro i hi
      rw [hc i (Finset.mem_range.mp hi), div_pow]
      congr 1
      rw [pow_two]
    rw [Finset.sum_congr rfl hsq2, ← Finset.sum_div, ← hSdef, hsq, div_self hS]
  · intro j hj
    have hdd : ((List.range Nd).map (fun i =>
        -(p.getD i 0 *
          (craw.map (fun x => x / sq ((craw.map (fun x => x ^ 2)).sum))).getD i 0))).sum =
        ∑ i ∈ Finset.range Nd, -(p.getD i 0 * (specCofactor Nd p i / sq S)) := by
      rw [list_sum_map_range]
      exact Finset.sum_congr rfl (fun i hi => by rw [hc i (Finset.mem_range.mp hi)])
    have hnum : ∑ i ∈ Finset.range Nd,
          (craw.map (fun x => x / sq ((craw.map (fun x => x ^ 2)).sum))).getD i 0 *
            p.getD (j * Nd + i) 0 =
        ∑ i ∈ Finset.range Nd, specCofactor Nd p i / sq S * p.getD (j * Nd + i) 0 :=
      Finset.sum_congr rfl (fun i hi => by rw [hc i (Finset.mem_range.mp hi)])
    rw [hdd, hnum]
    have hsplit : ∀ i : ℕ,
        specCofactor Nd p i / sq S * p.getD (j * Nd + i) 0 +
          -(p.getD i 0 * (specCofactor Nd p i / sq S)) =
        (specCofactor Nd p i * (p.getD (j * Nd + i) 0 - p.getD (0 * Nd + i) 0)) / sq S := by
      intro i
      rw [Nat.zero_mul, Nat.zero_add]
      field_simp
      ring
    rw [← Finset.sum_add_distrib, Finset.sum_congr rfl (fun i _ => hsplit i), ← Finset.sum_div]
    have htel : ∀ i : ℕ,
        p.getD (j * Nd + i) 0 - p.getD (0 * Nd + i) 0 =
          ∑ t ∈ Finset.range j, pdiffE Nd p t i := by
      intro i
      simp only [pdiffE]
      rw [Finset.sum_range_sub (fun t => p.getD (t * Nd + i) 0) j]
    rw [Finset.sum_congr rfl (fun i _ => by rw [htel i])]
    rw [Finset.sum_congr rfl (fun i _ => Finset.mul_sum _ _ _), Finset.sum_comm]
    have hz : ∀ t ∈ Finset.range j,
        ∑ i ∈ Finset.range Nd, specCofactor Nd p i * pdiffE Nd p t i = 0 := by
      intro t htj
      exact cofactor_orth Nd hNd p t (by have := Finset.mem_range.mp htj; omega)
    rw [Finset.sum_congr rfl hz]
    simp

/-- C macro `CH_MAX_NUM_FACES` (line 182). -/
def CH_MAX_NUM_FACES : ℕ := 50000

/-- C macro `CONVHULL_ND_MAX_DIMENSIONS` (line 183). -/
def CONVHULL_ND_MAX_DIMENSIONS : ℕ := 5

/-- C macro `CH_NOISE_VAL` (line 160), the double literal `0.0000001`; read
as the exact rational `10⁻⁷` (the noise scale multiplies an arbitrary
stream, so the tiny binary-rounding of the literal is immaterial to every
statement below). -/
def CH_NOISE_VAL : K := 1 / 10 ^ 7

/-- The span threshold literal `0.0000001f` (lines 552, 1239), read as
`10⁻⁷` likewise. -/
def chSpanThresh : K := 1 / 10 ^ 7

/-- The literal `2.23e+13` used to initialise max/min scans
(lines 542-543, 1229-1230, 1750); exactly representable. -/
def chBig : K := 22300000000000

/-- C `ismember` (lines 486-499): for each element of `pLeft`, whether it
occurs in `pRight`. -/
def ismember (pLeft pRight : List ℕ) : List Bool :=
  pLeft.map (fun x => pRight.contains x)

/-- Straight insertion sort, the stand-in of the embedding for C `qsort` (whose
order on comparator ties is unspecified; any sort consistent with the
comparator is a faithful model, and this one is structurally recursive). -/
def insertSorted {α : Type} (le : α → α → Bool) (a : α) : List α → List α
  | [] => [a]
  | b :: t => if le a b then a :: b :: t else b :: insertSorted le a t

def insertionSort {α : Type} (le : α → α → Bool) : List α → List α
  | [] => []
  | a :: t => insertSorted le a (insertionSort le t)

/-- C `sort_int(v, NULL, NULL, len, 0)` (ascending, comparator
`cmp_asc_int`). -/
def sort_int_asc (l : List ℕ) : List ℕ :=
  insertionSort (fun a b => decide (a ≤ b)) l

/-- C `sort_float(v, out, idx, len, 1)` (descending, comparator
`cmp_desc_float`), returning the permutation `new_idices`: the original
positions listed in decreasing order of value (C struct `float_w_idx`
becomes the pair (val, idx)). -/
def sort_float_desc_idx (v : List K) : List ℕ :=
  (insertionSort (fun a b => decide (b.1 ≤ a.1)) (v.enum.map (fun q => (q.2, q.1)))).map
    (fun q => q.2)

/-- Perturbed homogeneous point rows (3-D lines 528-536, N-D 1216-1223):
row `i` is the `d` perturbed coordinates followed by the constant `1` used
only by the determinant orientation tests.  `r k` is the `k`-th draw of
`rand()/RAND_MAX`, drawn in the same row-major order as the C loop. -/
def chPoints (d n : ℕ) (inpts : List K) (r : ℕ → K) : List (List K) :=
  (List.range n).map (fun i =>
    ((List.range d).map (fun j => inpts.getD (i * d + j) 0 + CH_NOISE_VAL * r (i * d + j)))
      ++ [1])

/-- Per-axis span (lines 538-556 / 1225-1243): max minus min of the
perturbed coordinate `j`, scans initialised with `∓2.23e13`. -/
def spanAxis (n : ℕ) (points : List (List K)) (j : ℕ) : K :=
  ((List.range n).map (fun i => (points.getD i []).getD j 0)).foldl max (-chBig)
    - ((List.range n).map (fun i => (points.getD i []).getD j 0)).foldl min chBig

/-- Initial simplex faces (lines 558-580 / 1245-1267): face `i` is
`aVec = [0..d]` without `i`. -/
def initFaces (d : ℕ) : List (List ℕ) :=
  (List.range (d + 1)).map (fun i => (List.range (d + 1)).filter (fun a => a != i))

/-- The flat `d×d` matrix `p_s` holding, for each vertex of a face, the first `d` coordinates
(lines 583-585 / 1270-1272). -/
def faceRows (d : ℕ) (points : List (List K)) (f : List ℕ) : List K :=
  (f.map (fun v => (List.range d).map (fun k => (points.getD v []).getD k 0))).flatten

/-- The hull working state: parallel arrays `faces` (vertex-index rows),
`cf` (plane coefficient rows) and `df` (plane offsets), always of equal
length `nFaces`. -/
structure HullState (K : Type) where
  faces : List (List ℕ)
  cf : List (List K)
  df : List K

/-- Initial simplex with plane equations (lines 558-592 / 1245-1279). -/
def simplexPlanes (planeFn : List K → List K × K) (d : ℕ) (points : List (List K)) :
    HullState K :=
  let faces := initFaces d
  { faces := faces
    cf := faces.map (fun f => (planeFn (faceRows d points f)).1)
    df := faces.map (fun f => (planeFn (faceRows d points f)).2) }

/-- The flat `(d+1)×(d+1)` matrix `A` for an orientation test
(lines 606-618 / 1292-1304 and 913-923 / 1602-1615): the `d` face vertices'
full homogeneous rows plus the row of the reference point. -/
def detRowsA (d : ℕ) (points : List (List K)) (f : List ℕ) (pidx : ℕ) : List K :=
  (f.map (fun v => (List.range (d + 1)).map (fun l => (points.getD v []).getD l 0))).flatten
    ++ ((List.range (d + 1)).map (fun l => (points.getD pidx []).getD l 0))

/-- Reverse the order of the last two vertex indices of a face
(lines 626-630 / 1315-1319, 928-932 / 1620-1624). -/
def swapLastTwo (f : List ℕ) : List ℕ :=
  f.take (f.length - 2) ++ [f.getD (f.length - 1) 0, f.getD (f.length - 2) 0]

def negList (l : List K) : List K := l.map (fun x => -x)

/-- Initial-simplex orientation pass (lines 597-643 / 1284-1332): for face
`k` the omitted simplex vertex is `p = k`; if the signed volume is negative,
swap the last two vertices and negate the plane.  (The C code also sorts
`fVec` and re-fills `A` after the flip; both results are never read and are
omitted.) -/
def orientInit (detFn : List K → K) (d : ℕ) (points : List (List K)) (st : HullState K) :
    HullState K :=
  (List.range (d + 1)).foldl (fun st k =>
    let v := detFn (detRowsA d points (st.faces.getD k []) k)
    if v < 0 then
      { faces := st.faces.set k (swapLastTwo (st.faces.getD k []))
        cf := st.cf.set k (negList (st.cf.getD k []))
        df := st.df.set k (-(st.df.getD k 0)) }
    else st) st

/-- Centroid of the non-simplex points (lines 646-652 / 1334-1341); the C
divisor is the int difference `nVert - d - 1` cast to float. -/
def meanP (d n : ℕ) (points : List (List K)) (j : ℕ) : K :=
  (((List.range n).drop (d + 1)).map (fun i => (points.getD i []).getD j 0)).sum
    / ((n : K) - (d : K) - 1)

/-- Squared span-normalised distance of non-simplex point `d+1+i` from the
centroid (`absdist`/`reldist`, lines 654-665 / 1343-1354). -/
def reldist (d n : ℕ) (points : List (List K)) (span : ℕ → K) (i : ℕ) : K :=
  ((List.range d).map (fun j =>
    (((points.getD (i + d + 1) []).getD j 0 - meanP d n points j) / span j) ^ 2)).sum

/-- The candidate queue `pleft` (lines 667-678 / 1356-1367): indices
`d+1 .. n-1` sorted by decreasing `reldist`.  (For `n ≤ d+1` the C array
length `nVert-d-1` is zero or negative; the embedding uses the empty
queue.) -/
def buildQueue (d n : ℕ) (points : List (List K)) (span : ℕ → K) : List ℕ :=
  (sort_float_desc_idx ((List.range (n - d - 1)).map (fun i => reldist d n points span i))).map
    (fun idx => idx + (d + 1))

/-- Abnormal terminations of the main loop: `resource` is the
`CH_MAX_NUM_FACES` abort (normal return with empty output), `orient` is the
orientation failure (C throws / reads out of bounds). -/
inductive ChErr where
  | resource
  | orient
deriving DecidableEq

/-- The dot product `points_cf[j]` of the point row with a plane row
(lines 734-739 / 1423-1428). -/
def dotd (d : ℕ) (xs ys : List K) : K :=
  ((List.range d).map (fun k => xs.getD k 0 * ys.getD k 0)).sum

/-- `points_s`: the first `d` coordinates of the popped point
(lines 721-722 / 1410-1411). -/
def pointS (d : ℕ) (points : List (List K)) (i : ℕ) : List K :=
  (List.range d).map (fun j => (points.getD i []).getD j 0)

/-- `visible_ind` (lines 741-751 / 1430-1440): face `j` is visible from
point `i` iff `points_cf[j] + df[j] > 0`. -/
def visibleFlags (d : ℕ) (points : List (List K)) (st : HullState K) (i : ℕ) : List Bool :=
  (List.range st.faces.length).map (fun j =>
    decide (dotd d (pointS d points i) (st.cf.getD j []) + st.df.getD j 0 > 0))

/-- `for l: if f0[..,l] then append gVec[l]` (lines 817-826 / 1506-1515):
the entries of `g` at the flagged positions, in order. -/
def pickFlagged (g : List ℕ) (flags : List Bool) : List ℕ :=
  ((g.zip flags).filter (fun q => q.2)).map (fun q => q.1)

/-- Horizon construction (lines 781-831 / 1470-1519): for every visible
face `v` (ascending index) and every nonvisible face sharing exactly `d-1`
vertices with it, one ridge row holding those shared vertices. -/
def horizonOf (d : ℕ) (faces : List (List ℕ)) (flags : List Bool) : List (List ℕ) :=
  let nF := faces.length
  let visIdx := (List.range nF).filter (fun j => flags.getD j false)
  let nonvis := ((List.range nF).filter (fun j => !(flags.getD j false))).map
    (fun j => faces.getD j [])
  visIdx.flatMap (fun v =>
    let face_s := sort_int_asc (faces.getD v [])
    (List.range nonvis.length).filterMap (fun t =>
      let g := nonvis.getD t []
      let f0 := ismember g face_s
      if f0.count true = d - 1 then some (pickFlagged g f0) else none))

/-- Deletion of the visible faces (lines 832-852 / 1520-1541): the
nonvisible rows of `faces`/`cf`/`df` are compacted, preserving order. -/
def keepIdx (flags : List Bool) (nF : ℕ) : List ℕ :=
  (List.range nF).filter (fun j => !(flags.getD j false))

def survivors (st : HullState K) (flags : List Bool) : HullState K :=
  { faces := (keepIdx flags st.faces.length).map (fun j => st.faces.getD j [])
    cf := (keepIdx flags st.faces.length).map (fun j => st.cf.getD j [])
    df := (keepIdx flags st.faces.length).map (fun j => st.df.getD j 0) }

/-- The face-adding loop (lines 857-883 / 1546-1572): each horizon row plus
the new point `i` becomes a face with a fresh plane equation; after each
append, `nFaces > CH_MAX_NUM_FACES` aborts with the resource error (the C
code sets `ERROR = 1`, `nFaces = 0` and falls through to empty output). -/
def addFacesLoop (planeFn : List K → List K × K) (d : ℕ) (points : List (List K)) (i : ℕ) :
    List (List ℕ) → HullState K → Except ChErr (HullState K)
  | [], st => .ok st
  | hrow :: rest, st =>
      let newf := hrow ++ [i]
      let cd := planeFn (faceRows d points newf)
      let st' : HullState K :=
        { faces := st.faces ++ [newf], cf := st.cf ++ [cd.1], df := st.df ++ [cd.2] }
      if st'.faces.length > CH_MAX_NUM_FACES then .error .resource
      else addFacesLoop planeFn d points i rest st'

/-- `pp` (lines 895-908 / 1584-1597): the candidate reference points for
orienting face `k`: hull-face indices `hVec = [0..nFaces)` that are not
vertices of the face. -/
def ppCandidates (nF : ℕ) (face_s : List ℕ) : List ℕ :=
  (((List.range nF).zip (ismember (List.range nF) face_s)).filter (fun q => !q.2)).map
    (fun q => q.1)

/-- The `while (detA == 0.0)` scan (lines 912-923 / 1601-1615): first
candidate whose signed volume against the face is nonzero, with the value;
`none` models the C `index` running past the end of `pp` (out-of-bounds). -/
def findNonzeroDet (detFn : List K → K) (d : ℕ) (points : List (List K)) (f : List ℕ) :
    List ℕ → ℕ → Option (ℕ × K)
  | [], _ => none
  | c :: rest, idx =>
      let v := detFn (detRowsA d points f c)
      if v = 0 then findNonzeroDet detFn d points f rest (idx + 1)
      else some (idx, v)

/-- Orientation of one new face (lines 890-955 / 1579-1650).  On a negative
volume the last two vertices are swapped and the plane negated; the
re-check (active without `NDEBUG`) then uses `pp[index]` where `index` has
already moved one past the candidate that decided the sign — when that is
out of range the C read is undefined and the `getD` default `0`
stands in (commented). -/
def orientOneFace (detFn : List K → K) (d : ℕ) (points : List (List K)) (st : HullState K)
    (k : ℕ) : Except ChErr (HullState K) :=
  let face_s := sort_int_asc (st.faces.getD k [])
  let pp := ppCandidates st.faces.length face_s
  match findNonzeroDet detFn d points (st.faces.getD k []) pp 0 with
  | none => .error .orient
  | some (idx, detA) =>
      if detA < 0 then
        let newf := swapLastTwo (st.faces.getD k [])
        let st' : HullState K :=
          { faces := st.faces.set k newf
            cf := st.cf.set k (negList (st.cf.getD k []))
            df := st.df.set k (-(st.df.getD k 0)) }
        let detA2 := detFn (detRowsA d points newf (pp.getD (idx + 1) 0))
        if detA2 ≤ 0 then .error .orient else .ok st'
      else .ok st

def orientLoop (detFn : List K → K) (d : ℕ) (points : List (List K)) :
    List ℕ → HullState K → Except ChErr (HullState K)
  | [], st => .ok st
  | k :: rest, st =>
      match orientOneFace detFn d points st k with
      | .error e => .error e
      | .ok st' => orientLoop detFn d points rest st'

/-- One iteration of the main quickhull loop for the popped point `i`
(lines 720-963 / 1409-1658): find the visible faces; if none, the point is
interior and the state is unchanged; otherwise build the horizon, delete
the visible faces, append one new face per horizon ridge (with the resource
ceiling check) and orient the new faces. -/
def processPoint (planeFn : List K → List K × K) (detFn : List K → K) (d : ℕ)
    (points : List (List K)) (st : HullState K) (i : ℕ) : Except ChErr (HullState K) :=
  let flags := visibleFlags d points st i
  if flags.count true = 0 then .ok st
  else
    let horizon := horizonOf d st.faces flags
    let base := survivors st flags
    let start := base.faces.length
    match addFacesLoop planeFn d points i horizon base with
    | .error e => .error e
    | .ok st1 =>
        match orientLoop detFn d points ((List.range st1.faces.length).drop start) st1 with
        | .error e => .error e
        | .ok st2 => .ok st2

/-- The `while (num_pleft > 0)` loop (lines 703-968 / 1392-1663): pop the
head of the queue, process it; an error aborts the loop. -/
def chLoop (planeFn : List K → List K × K) (detFn : List K → K) (d : ℕ)
    (points : List (List K)) : List ℕ → HullState K → Except ChErr (HullState K)
  | [], st => .ok st
  | i :: rest, st =>
      match processPoint planeFn detFn d points st i with
      | .error e => .error e
      | .ok st' => chLoop planeFn detFn d points rest st'

/-- Observable outcome of a build.  `emptyInput` is the early `NULL`/`0`
return; `degenerate` the span-check `throw`; `assertFail` the
`assert(d <= CONVHULL_ND_MAX_DIMENSIONS)`; `resource` the
`CH_MAX_NUM_FACES` abort (normal return, `*out_faces = NULL`,
`*nOut_faces = 0`, `*out_cf`/`*out_df = NULL` when requested);
`orientationFail` the orientation `throw`; `ok` the final parallel output
arrays. -/
inductive BuildResult (K : Type) where
  | emptyInput
  | degenerate
  | assertFail
  | resource
  | orientationFail
  | ok (faces : List (List ℕ)) (cf : List (List K)) (df : List K)
deriving DecidableEq

/-- The hull pipeline shared verbatim between `convhull_3d_build`
(lines 528-1005) and `convhull_nd_build` (lines 1216-1713), the two bodies
differing only in the plane routine (`plane_3d` vs `plane_nd`) and the
determinant routine (`det_4x4` vs the `d == 3` dispatch), here passed as
`planeFn` / `detFn`. -/
def chEngine (planeFn : List K → List K × K) (detFn : List K → K) (d n : ℕ)
    (points : List (List K)) : BuildResult K :=
  if (List.range d).any (fun j => decide (spanAxis n points j < chSpanThresh)) then .degenerate
  else
    let st0 := orientInit detFn d points (simplexPlanes planeFn d points)
    let queue := buildQueue d n points (fun j => spanAxis n points j)
    match chLoop planeFn detFn d points queue st0 with
    | .ok st => .ok st.faces st.cf st.df
    | .error .resource => .resource
    | .error .orient => .orientationFail

/-- The determinant dispatch of `convhull_nd_build`
(lines 1306-1310, 1611-1614): `det_4x4` when `d == 3`, else
`det_NxN(A, d+1)`. -/
def detSelA (d : ℕ) (A : List K) : K :=
  if d = 3 then det_4x4 A else det_NxN (d + 1) A

/-- C `convhull_nd_build` (lines 1193-1714): asserts `d ≤ 5`, returns empty
for `nVert ≤ d` (or a `NULL` input pointer, not modeled), else runs the
pipeline on the perturbed points. -/
def convhull_nd_build (sq : K → K) (r : ℕ → K) (inpts : List K) (n d : ℕ) : BuildResult K :=
  if ¬ d ≤ CONVHULL_ND_MAX_DIMENSIONS then .assertFail
  else if n ≤ d then .emptyInput
  else chEngine (plane_nd sq d) (detSelA d) d n (chPoints d n inpts r)

/-- C `convhull_3d_build` (lines 509-1006): returns empty for `nVert < 3`
(or a `NULL` input pointer, not modeled), else runs the pipeline with
`d = 3` and the hardcoded `plane_3d` / `det_4x4`; the input vertex array is
flattened row-major (`in_vertices[i].v[j] = inverts[i*3+j]`). -/
def convhull_3d_build (sq : K → K) (r : ℕ → K) (inverts : List K) (n : ℕ) : BuildResult K :=
  if n < 3 then .emptyInput
  else chEngine (plane_3d sq) det_4x4 3 n (chPoints 3 n inverts r)

def facesOf : BuildResult K → List (List ℕ)
  | .ok fs _ _ => fs
  | _ => []

def cfOf : BuildResult K → List (List K)
  | .ok _ cs _ => cs
  | _ => []

def dfOf : BuildResult K → List K
  | .ok _ _ ds => ds
  | _ => []

/-- Whether the C function returns to its caller (as opposed to throwing or
aborting): the `ok`, `emptyInput` and `resource` outcomes return normally
with the documented outputs. -/
def returnsNormally : BuildResult K → Bool
  | .ok _ _ _ => true
  | .emptyInput => true
  | .resource => true
  | _ => false

theorem plane_3d_fst (sq : K → K) (p : List K) :
    (plane_3d sq p).1 =
      (planeRaw3 p).map (fun x => x / sq (((planeRaw3 p).map (fun x => x ^ 2)).sum)) := rfl

theorem plane_3d_snd (sq : K → K) (p : List K) :
    (plane_3d sq p).2 =
      ((List.range 3).map (fun i => -(p.getD i 0 *
        ((planeRaw3 p).map
          (fun x => x / sq (((planeRaw3 p).map (fun x => x ^ 2)).sum))).getD i 0))).sum := rfl

theorem plane_nd_eq_3d (sq : K → K) (p : List K) : plane_nd sq 3 p = plane_3d sq p := rfl

theorem plane_nd_fst (sq : K → K) (Nd : ℕ) (p : List K) (h : Nd ≠ 3) :
    (plane_nd sq Nd p).1 =
      (planeRawNd Nd p).map (fun x => x / sq (((planeRawNd Nd p).map (fun x => x ^ 2)).sum)) := by
  rw [plane_nd, if_neg h]

theorem plane_nd_snd (sq : K → K) (Nd : ℕ) (p : List K) (h : Nd ≠ 3) :
    (plane_nd sq Nd p).2 =
      ((List.range Nd).map (fun i => -(p.getD i 0 *
        ((planeRawNd Nd p).map
          (fun x => x / sq (((planeRawNd Nd p).map (fun x => x ^ 2)).sum))).getD i 0))).sum := by
  rw [plane_nd, if_neg h]

/-- C9: the determinant fast path agrees with the recursive fallback —
`det_4x4 m = det_NxN m 4` for every flat 4×4 matrix, and for every
`d ≤ 5`, `det_NxN` computes the mathematical determinant (via first-row
cofactor expansion, with the 0×0 determinant equal to 1). -/
theorem c9_det_fast_path_equals_recursive (d : ℕ) (hd : d ≤ 5) (m m4 : List K) :
    det_4x4 m4 = det_NxN 4 m4 ∧ det_NxN d m = (matrixOfList d m).det :=
  ⟨by rw [det_4x4_eq_det, det_NxN_eq_det], det_NxN_eq_det d m⟩

theorem c9_det_fast_path_equals_recursive_witness :
    det_4x4 ([1, 2, 3, 4, 5, 6, 7, 8, 9, 10, 11, 12, 13, 14, 15, 16] : List ℚ) =
      det_NxN 4 ([1, 2, 3, 4, 5, 6, 7, 8, 9, 10, 11, 12, 13, 14, 15, 16] : List ℚ) ∧
    det_NxN 2 ([1, 2, 3, 4] : List ℚ) = (matrixOfList 2 ([1, 2, 3, 4] : List ℚ)).det :=
  c9_det_fast_path_equals_recursive 2 (by norm_num)
    ([1, 2, 3, 4] : List ℚ) ([1, 2, 3, 4, 5, 6, 7, 8, 9, 10, 11, 12, 13, 14, 15, 16] : List ℚ)

/-- C7: hyperplane postcondition in exact arithmetic.  For `3 ≤ Nd ≤ 5`,
whenever the generalized-cross-product normal is nonzero (`S ≠ 0` for `S`
the sum of squared cofactors) and `sq` computes a square root at `S`,
`plane_nd` (which is `plane_3d` for `Nd = 3`) returns coefficients of unit
Euclidean norm satisfying `dot(c, p_j) + d* = 0` for each of the `Nd` input
points, and each coefficient is the alternating-sign cofactor (deleting
point-difference column `i`) divided by the norm. -/
theorem c7_hyperplane_postcondition (sq : K → K) (Nd : ℕ) (h3 : 3 ≤ Nd) (h5 : Nd ≤ 5)
    (p : List K) (S : K)
    (hSdef : S = ∑ i ∈ Finset.range Nd, (specCofactor Nd p i) ^ 2)
    (hS : S ≠ 0) (hsq : sq S * sq S = S) :
    (∑ i ∈ Finset.range Nd, ((plane_nd sq Nd p).1.getD i 0) ^ 2 = 1) ∧
    (∀ j, j < Nd →
      (∑ i ∈ Finset.range Nd, (plane_nd sq Nd p).1.getD i 0 * p.getD (j * Nd + i) 0)
        + (plane_nd sq Nd p).2 = 0) ∧
    (∀ i, i < Nd → (plane_nd sq Nd p).1.getD i 0 = specCofactor Nd p i / sq S) := by
  have hNd1 : 1 ≤ Nd := by omega
  by_cases h : Nd = 3
  · subst h
    have hmain := plane_normalize_spec sq 3 (by norm_num) p (planeRaw3 p)
      (by simp [planeRaw3]) (fun i hi => planeRaw3_spec p i hi) S hSdef hS hsq
    rw [plane_nd_eq_3d, plane_3d_fst, plane_3d_snd]
    exact ⟨hmain.2.1, hmain.2.2, hmain.1⟩
  · have hNd45 : Nd = 4 ∨ Nd = 5 := by omega
    have hmain := plane_normalize_spec sq Nd hNd1 p (planeRawNd Nd p)
      (by simp [planeRawNd]) (fun i hi => planeRawNd_spec Nd p i hi hNd45) S hSdef hS hsq
    rw [plane_nd_fst sq Nd p h, plane_nd_snd sq Nd p h]
    exact ⟨hmain.2.1, hmain.2.2, hmain.1⟩

set_option maxRecDepth 100000 in
unseal Rat.add Rat.mul Rat.sub Rat.inv in
theorem c7_hyperplane_postcondition_witness :
    ((1 : ℚ) = ∑ i ∈ Finset.range 3,
      (specCofactor 3 ([0, 0, 0, 1, 0, 0, 0, 1, 0] : List ℚ) i) ^ 2) ∧
    ((∑ i ∈ Finset.range 3,
      ((plane_nd (fun x => x) 3 ([0, 0, 0, 1, 0, 0, 0, 1, 0] : List ℚ)).1.getD i 0) ^ 2 = 1) ∧
    (∀ j, j < 3 →
      (∑ i ∈ Finset.range 3,
        (plane_nd (fun x => x) 3 ([0, 0, 0, 1, 0, 0, 0, 1, 0] : List ℚ)).1.getD i 0 *
          ([0, 0, 0, 1, 0, 0, 0, 1, 0] : List ℚ).getD (j * 3 + i) 0)
        + (plane_nd (fun x => x) 3 ([0, 0, 0, 1, 0, 0, 0, 1, 0] : List ℚ)).2 = 0) ∧
    (∀ i, i < 3 →
      (plane_nd (fun x => x) 3 ([0, 0, 0, 1, 0, 0, 0, 1, 0] : List ℚ)).1.getD i 0 =
        specCofactor 3 ([0, 0, 0, 1, 0, 0, 0, 1, 0] : List ℚ) i / (fun x : ℚ => x) 1)) := by
  have hSdef : (1 : ℚ) = ∑ i ∈ Finset.range 3,
      (specCofactor 3 ([0, 0, 0, 1, 0, 0, 0, 1, 0] : List ℚ) i) ^ 2 := by
    have hconv : ∀ i ∈ Finset.range 3,
        (specCofactor 3 ([0, 0, 0, 1, 0, 0, 0, 1, 0] : List ℚ) i) ^ 2 =
          ((planeRaw3 ([0, 0, 0, 1, 0, 0, 0, 1, 0] : List ℚ)).getD i 0) ^ 2 := by
      intro i hi
      rw [← planeRaw3_spec _ i (Finset.mem_range.mp hi)]
    rw [Finset.sum_congr rfl hconv]
    rw [Finset.sum_range_succ, Finset.sum_range_succ, Finset.sum_range_succ,
      Finset.sum_range_zero]
    decide
  exact ⟨hSdef, c7_hyperplane_postcondition (fun x => x) 3 (by norm_num) (by norm_num)
    ([0, 0, 0, 1, 0, 0, 0, 1, 0] : List ℚ) 1 hSdef (by norm_num) (by norm_num)⟩

/-- C8: interior-point frame condition.  If the popped point `i` is visible
from no current facet (`dot(normal, i) + offset ≤ 0` for every facet), that
iteration of the main loop returns the state unchanged — same `faces`
array, same `cf`, same `df`, hence same `nFaces` — and the loop continues
on the remaining queue: the only state change is the removal of `i` from
the candidate queue.  This is the shared loop body of `convhull_3d_build`
(lines 741-755) and `convhull_nd_build` (lines 1430-1444). -/
theorem c8_interior_point_frame (planeFn : List K → List K × K) (detFn : List K → K)
    (d : ℕ) (points : List (List K)) (st : HullState K) (i : ℕ) (rest : List ℕ)
    (h : ∀ j, j < st.faces.length →
      dotd d (pointS d points i) (st.cf.getD j []) + st.df.getD j 0 ≤ 0) :
    processPoint planeFn detFn d points st i = .ok st ∧
    chLoop planeFn detFn d points (i :: rest) st =
      chLoop planeFn detFn d points rest st := by
  have hflags : (visibleFlags d points st i).count true = 0 := by
    rw [List.count_eq_zero]
    intro hmem
    unfold visibleFlags at hmem
    rw [List.mem_map] at hmem
    obtain ⟨j, hj, hjeq⟩ := hmem
    have hjlt : j < st.faces.length := List.mem_range.mp hj
    have := of_decide_eq_true hjeq
    exact absurd this (not_lt.mpr (h j hjlt))
  have hpp : processPoint planeFn detFn d points st i = .ok st := by
    unfold processPoint
    rw [if_pos hflags]
  refine ⟨hpp, ?_⟩
  simp only [chLoop, hpp]

theorem c8_interior_point_frame_witness :
    (∀ j, j < (HullState.mk [[0, 1, 2]] [[1, 0, 0]] [-5] : HullState ℚ).faces.length →
      dotd 3 (pointS 3 [[0, 0, 0, 1]] 0)
          ((HullState.mk [[0, 1, 2]] [[1, 0, 0]] [-5] : HullState ℚ).cf.getD j []) +
        (HullState.mk [[0, 1, 2]] [[1, 0, 0]] [-5] : HullState ℚ).df.getD j 0 ≤ 0) ∧
    processPoint (plane_3d (K := ℚ) (fun x => x)) det_4x4 3 [[0, 0, 0, 1]]
        (HullState.mk [[0, 1, 2]] [[1, 0, 0]] [-5]) 0 =
      .ok (HullState.mk [[0, 1, 2]] [[1, 0, 0]] [-5]) := by
  have h : ∀ j, j < (HullState.mk [[0, 1, 2]] [[1, 0, 0]] [-5] : HullState ℚ).faces.length →
      dotd 3 (pointS 3 [[0, 0, 0, 1]] 0)
          ((HullState.mk [[0, 1, 2]] [[1, 0, 0]] [-5] : HullState ℚ).cf.getD j []) +
        (HullState.mk [[0, 1, 2]] [[1, 0, 0]] [-5] : HullState ℚ).df.getD j 0 ≤ 0 := by
    intro j hj
    have hj0 : j = 0 := by simp at hj; omega
    subst hj0
    show dotd 3 (pointS 3 [[0, 0, 0, 1]] 0) [1, 0, 0] + (-5 : ℚ) ≤ 0
    norm_num [dotd, pointS, List.range_succ]
  exact ⟨h, (c8_interior_point_frame (plane_3d (fun x => x)) det_4x4 3 [[0, 0, 0, 1]]
    (HullState.mk [[0, 1, 2]] [[1, 0, 0]] [-5]) 0 [] h).1⟩

theorem addFacesLoop_ok_le (planeFn : List K → List K × K) (d : ℕ)
    (points : List (List K)) (i : ℕ) :
    ∀ (rows : List (List ℕ)) (st st' : HullState K),
      addFacesLoop planeFn d points i rows st = .ok st' →
      st.faces.length ≤ CH_MAX_NUM_FACES → st'.faces.length ≤ CH_MAX_NUM_FACES := by
  intro rows
  induction rows with
  | nil =>
      intro st st' h hle
      rw [addFacesLoop] at h
      cases h
      exact hle
  | cons hrow rest ih =>
      intro st st' h hle
      rw [addFacesLoop] at h
      by_cases hc : (st.faces ++ [hrow ++ [i]]).length > CH_MAX_NUM_FACES
      · rw [if_pos hc] at h
        cases h
      · rw [if_neg hc] at h
        exact ih _ st' h (by simpa using not_lt.mp hc)

theorem orientOneFace_ok_length (detFn : List K → K) (d : ℕ) (points : List (List K))
    (st st' : HullState K) (k : ℕ) (h : orientOneFace detFn d points st k = .ok st') :
    st'.faces.length = st.faces.length := by
  unfold orientOneFace at h
  simp only [] at h
  split at h
  · cases h
  · split at h
    · split at h
      · cases h
      · cases h
        simp
    · cases h
      rfl

theorem orientLoop_ok_length (detFn : List K → K) (d : ℕ) (points : List (List K)) :
    ∀ (ks : List ℕ) (st st' : HullState K),
      orientLoop detFn d points ks st = .ok st' → st'.faces.length = st.faces.length := by
  intro ks
  induction ks with
  | nil =>
      intro st st' h
      rw [orientLoop] at h
      cases h
      rfl
  | cons k rest ih =>
      intro st st' h
      rw [orientLoop] at h
      rcases ho : orientOneFace detFn d points st k with e | st1
      · rw [ho] at h
        cases h
      · rw [ho] at h
        rw [ih st1 st' h, orientOneFace_ok_length detFn d points st st1 k ho]

theorem processPoint_ok_le (planeFn : List K → List K × K) (detFn : List K → K) (d : ℕ)
    (points : List (List K)) (st st' : HullState K) (i : ℕ)
    (h : processPoint planeFn detFn d points st i = .ok st')
    (hle : st.faces.length ≤ CH_MAX_NUM_FACES) : st'.faces.length ≤ CH_MAX_NUM_FACES := by
  unfold processPoint at h
  by_cases h0 : (visibleFlags d points st i).count true = 0
  · rw [if_pos h0] at h
    cases h
    exact hle
  · rw [if_neg h0] at h
    simp only [] at h
    rcases ha : addFacesLoop planeFn d points i (horizonOf d st.faces (visibleFlags d points st i))
        (survivors st (visibleFlags d points st i)) with e | st1
    · rw [ha] at h
      cases h
    · rw [ha] at h
      simp only [] at h
      have hbase : (survivors st (visibleFlags d points st i)).faces.length ≤ CH_MAX_NUM_FACES := by
        refine le_trans ?_ hle
        unfold survivors keepIdx
        simpa using le_trans (List.length_filter_le _ _) (by simp)
      have h1 : st1.faces.length ≤ CH_MAX_NUM_FACES :=
        addFacesLoop_ok_le planeFn d points i _ _ st1 ha hbase
      rcases ho : orientLoop detFn d points
          ((List.range st1.faces.length).drop (survivors st (visibleFlags d points st i)).faces.length)
          st1 with e | st2
      · rw [ho] at h
        cases h
      · rw [ho] at h
        cases h
        rw [orientLoop_ok_length detFn d points _ st1 st' ho]
        exact h1

theorem chLoop_ok_le (planeFn : List K → List K × K) (detFn : List K → K) (d : ℕ)
    (points : List (List K)) :
    ∀ (queue : List ℕ) (st st' : HullState K),
      chLoop planeFn detFn d points queue st = .ok st' →
      st.faces.length ≤ CH_MAX_NUM_FACES → st'.faces.length ≤ CH_MAX_NUM_FACES := by
  intro queue
  induction queue with
  | nil =>
      intro st st' h hle
      rw [chLoop] at h
      cases h
      exact hle
  | cons i rest ih =>
      intro st st' h hle
      rw [chLoop] at h
      rcases hp : processPoint planeFn detFn d points st i with e | st1
      · rw [hp] at h
        cases h
      · rw [hp] at h
        exact ih st1 st' h (processPoint_ok_le planeFn detFn d points st st1 i hp hle)

theorem orientInit_length (detFn : List K → K) (d : ℕ) (points : List (List K)) :
    ∀ (l : List ℕ) (st : HullState K),
      ((l.foldl (fun st k =>
        let v := detFn (detRowsA d points (st.faces.getD k []) k)
        if v < 0 then
          { faces := st.faces.set k (swapLastTwo (st.faces.getD k []))
            cf := st.cf.set k (negList (st.cf.getD k []))
            df := st.df.set k (-(st.df.getD k 0)) }
        else st) st : HullState K)).faces.length = st.faces.length := by
  intro l
  induction l with
  | nil => intro st; rfl
  | cons k rest ih =>
      intro st
      rw [List.foldl_cons]
      by_cases hv : detFn (detRowsA d points (st.faces.getD k []) k) < 0
      · rw [if_pos hv, ih]
        simp
      · rw [if_neg hv, ih]

theorem chEngine_ok_le (planeFn : List K → List K × K) (detFn : List K → K) (d n : ℕ)
    (points : List (List K)) (fs : List (List ℕ)) (cs : List (List K)) (ds : List K)
    (hd : d + 1 ≤ CH_MAX_NUM_FACES)
    (h : chEngine planeFn detFn d n points = .ok fs cs ds) :
    fs.length ≤ CH_MAX_NUM_FACES := by
  unfold chEngine at h
  by_cases hspan : ((List.range d).any fun j => decide (spanAxis n points j < chSpanThresh)) = true
  · rw [if_pos hspan] at h
    cases h
  · rw [if_neg hspan] at h
    simp only [] at h
    rcases hl : chLoop planeFn detFn d points
        (buildQueue d n points fun j => spanAxis n points j)
        (orientInit detFn d points (simplexPlanes planeFn d points)) with e | st
    · rw [hl] at h
      rcases e with _ | _ <;> cases h
    · rw [hl] at h
      cases h
      refine chLoop_ok_le planeFn detFn d points _ _ st hl ?_
      unfold orientInit
      rw [orientInit_length]
      have : (simplexPlanes planeFn d points).faces.length = d + 1 := by
        unfold simplexPlanes initFaces
        simp
      rw [this]
      exact hd

/-- C4: resource ceiling.  Appending a face when the facet count would
exceed `CH_MAX_NUM_FACES = 50000` makes the add-loop abort with the
resource error — which both builders turn into the empty result
(`BuildResult.resource`, the C `*out_faces = NULL`, `*nOut_faces = 0`,
`*out_cf`/`*out_df = NULL` outcome; the `ok` constructor carrying facet
data is a different constructor, so no partial hull can be returned) — and
every successful build returns at most 50000 facets, for the N-D and the
3-D builder alike. -/
theorem c4_resource_ceiling (planeFn : List K → List K × K) (d : ℕ)
    (points : List (List K)) (i : ℕ) (hrow : List ℕ) (rest : List (List ℕ))
    (st : HullState K) (hover : CH_MAX_NUM_FACES < st.faces.length + 1)
    (sq : K → K) (r : ℕ → K) (inpts inverts : List K) (n n3 dnd : ℕ)
    (fs fs3 : List (List ℕ)) (cs cs3 : List (List K)) (ds ds3 : List K) :
    addFacesLoop planeFn d points i (hrow :: rest) st = .error ChErr.resource ∧
    (convhull_nd_build sq r inpts n dnd = .ok fs cs ds → fs.length ≤ CH_MAX_NUM_FACES) ∧
    (convhull_3d_build sq r inverts n3 = .ok fs3 cs3 ds3 → fs3.length ≤ CH_MAX_NUM_FACES) := by
  refine ⟨?_, ?_, ?_⟩
  · rw [addFacesLoop]
    rw [if_pos (by simpa using hover)]
  · intro h
    unfold convhull_nd_build at h
    by_cases ha : ¬ dnd ≤ CONVHULL_ND_MAX_DIMENSIONS
    · rw [if_pos ha] at h
      cases h
    · rw [if_neg ha] at h
      by_cases hn : n ≤ dnd
      · rw [if_pos hn] at h
        cases h
      · rw [if_neg hn] at h
        refine chEngine_ok_le _ _ dnd n _ fs cs ds ?_ h
        have : dnd ≤ CONVHULL_ND_MAX_DIMENSIONS := not_not.mp ha
        unfold CONVHULL_ND_MAX_DIMENSIONS at this
        unfold CH_MAX_NUM_FACES
        omega
  · intro h
    unfold convhull_3d_build at h
    by_cases hn : n3 < 3
    · rw [if_pos hn] at h
      cases h
    · rw [if_neg hn] at h
      refine chEngine_ok_le _ _ 3 n3 _ fs3 cs3 ds3 (by norm_num [CH_MAX_NUM_FACES]) h

set_option maxRecDepth 100000 in
unseal Rat.add Rat.mul Rat.sub Rat.inv in
theorem c4_resource_ceiling_witness :
    CH_MAX_NUM_FACES < (HullState.mk (List.replicate 50000 [0, 1, 2]) [] [] : HullState ℚ).faces.length + 1 ∧
    convhull_3d_build (K := ℚ) (fun x => x) (fun _ => 0) [0, 0, 0, 1, 0, 0, 0, 1, 0, 0, 0, 1] 4 =
      .ok (facesOf (convhull_3d_build (K := ℚ) (fun x => x) (fun _ => 0)
            [0, 0, 0, 1, 0, 0, 0, 1, 0, 0, 0, 1] 4))
          (cfOf (convhull_3d_build (K := ℚ) (fun x => x) (fun _ => 0)
            [0, 0, 0, 1, 0, 0, 0, 1, 0, 0, 0, 1] 4))
          (dfOf (convhull_3d_build (K := ℚ) (fun x => x) (fun _ => 0)
            [0, 0, 0, 1, 0, 0, 0, 1, 0, 0, 0, 1] 4)) ∧
    addFacesLoop (plane_3d (K := ℚ) (fun x => x)) 3 [] 0 [[1, 2]]
        (HullState.mk (List.replicate 50000 [0, 1, 2]) [] []) = .error ChErr.resource ∧
    (facesOf (convhull_3d_build (K := ℚ) (fun x => x) (fun _ => 0)
      [0, 0, 0, 1, 0, 0, 0, 1, 0, 0, 0, 1] 4)).length ≤ CH_MAX_NUM_FACES := by
  have hover : CH_MAX_NUM_FACES <
      (HullState.mk (List.replicate 50000 [0, 1, 2]) [] [] : HullState ℚ).faces.length + 1 := by
    have hfaces : (HullState.mk (List.replicate 50000 [0, 1, 2]) [] [] : HullState ℚ).faces =
        List.replicate 50000 [0, 1, 2] := rfl
    rw [hfaces, List.length_replicate]
    norm_num [CH_MAX_NUM_FACES]
  have hok : convhull_3d_build (K := ℚ) (fun x => x) (fun _ => 0)
      [0, 0, 0, 1, 0, 0, 0, 1, 0, 0, 0, 1] 4 =
      .ok (facesOf (convhull_3d_build (K := ℚ) (fun x => x) (fun _ => 0)
            [0, 0, 0, 1, 0, 0, 0, 1, 0, 0, 0, 1] 4))
          (cfOf (convhull_3d_build (K := ℚ) (fun x => x) (fun _ => 0)
            [0, 0, 0, 1, 0, 0, 0, 1, 0, 0, 0, 1] 4))
          (dfOf (convhull_3d_build (K := ℚ) (fun x => x) (fun _ => 0)
            [0, 0, 0, 1, 0, 0, 0, 1, 0, 0, 0, 1] 4)) := by decide
  have hmain := c4_resource_ceiling (plane_3d (K := ℚ) (fun x => x)) 3 [] 0 [1, 2] []
    (HullState.mk (List.replicate 50000 [0, 1, 2]) [] []) hover (fun x => x) (fun _ => 0)
    [] [0, 0, 0, 1, 0, 0, 0, 1, 0, 0, 0, 1] 0 4 0
    [] (facesOf (convhull_3d_build (K := ℚ) (fun x => x) (fun _ => 0)
      [0, 0, 0, 1, 0, 0, 0, 1, 0, 0, 0, 1] 4)) [] (cfOf (convhull_3d_build (K := ℚ) (fun x => x)
      (fun _ => 0) [0, 0, 0, 1, 0, 0, 0, 1, 0, 0, 0, 1] 4)) []
    (dfOf (convhull_3d_build (K := ℚ) (fun x => x) (fun _ => 0)
      [0, 0, 0, 1, 0, 0, 0, 1, 0, 0, 0, 1] 4))
  exact ⟨hover, hok, hmain.1, hmain.2.2 hok⟩

theorem getD_mem {α : Type} (l : List α) (i : ℕ) (dflt : α) (h : i < l.length) :
    l.getD i dflt ∈ l := by
  rw [List.getD_eq_getElem _ _ h]
  exact List.getElem_mem h

theorem insertSorted_perm {α : Type} (le : α → α → Bool) (a : α) (l : List α) :
    (insertSorted le a l).Perm (a :: l) := by
  induction l with
  | nil => exact List.Perm.refl _
  | cons b t ih =>
      rw [insertSorted]
      by_cases h : le a b
      · rw [if_pos h]
      · rw [if_neg h]
        exact (List.Perm.cons b ih).trans (List.Perm.swap a b t)

theorem insertionSort_perm {α : Type} (le : α → α → Bool) (l : List α) :
    (insertionSort le l).Perm l := by
  induction l with
  | nil => exact List.Perm.refl _
  | cons a t ih =>
      rw [insertionSort]
      exact (insertSorted_perm le a (insertionSort le t)).trans (List.Perm.cons a ih)

theorem sort_int_asc_perm (l : List ℕ) : (sort_int_asc l).Perm l :=
  insertionSort_perm _ l

theorem sort_float_desc_idx_perm (v : List K) :
    (sort_float_desc_idx v).Perm (List.range v.length) := by
  unfold sort_float_desc_idx
  have h1 : ((insertionSort (fun a b => decide (b.1 ≤ a.1))
      (v.enum.map (fun q => (q.2, q.1)))).map (fun q => q.2)).Perm
      ((v.enum.map (fun q : ℕ × K => (q.2, q.1))).map (fun q => q.2)) :=
    List.Perm.map _ (insertionSort_perm _ _)
  refine h1.trans ?_
  rw [List.map_map]
  have h2 : ((fun q : K × ℕ => q.2) ∘ fun q : ℕ × K => (q.2, q.1)) = Prod.fst := rfl
  rw [h2, List.enum_map_fst]

theorem swapLastTwo_perm (f : List ℕ) (h : 2 ≤ f.length) : (swapLastTwo f).Perm f := by
  have h2 : f.length - 2 < f.length := by omega
  have h1 : f.length - 2 + 1 < f.length := by omega
  have hdrop : f.drop (f.length - 2) =
      f.getD (f.length - 2) 0 :: f.getD (f.length - 1) 0 :: [] := by
    rw [List.drop_eq_getElem_cons h2, List.drop_eq_getElem_cons (by omega :
      f.length - 2 + 1 < f.length)]
    rw [show f.length - 2 + 1 + 1 = f.length from by omega, List.drop_length]
    rw [List.getD_eq_getElem _ _ h2, List.getD_eq_getElem _ _ (by omega : f.length - 1 < f.length)]
    have : f.length - 2 + 1 = f.length - 1 := by omega
    simp [this]
  unfold swapLastTwo
  have hsw : (f.getD (f.length - 1) 0 :: f.getD (f.length - 2) 0 :: []).Perm
      (f.getD (f.length - 2) 0 :: f.getD (f.length - 1) 0 :: []) :=
    List.Perm.swap _ _ _
  refine ((List.Perm.append_left (f.take (f.length - 2)) hsw).trans ?_)
  rw [← hdrop, List.take_append_drop]

theorem swapLastTwo_length (f : List ℕ) (h : 2 ≤ f.length) :
    (swapLastTwo f).length = f.length := (swapLastTwo_perm f h).length_eq

theorem swapLastTwo_nodup (f : List ℕ) (h : 2 ≤ f.length) (hn : f.Nodup) :
    (swapLastTwo f).Nodup := ((swapLastTwo_perm f h).nodup_iff).mpr hn

theorem swapLastTwo_mem (f : List ℕ) (h : 2 ≤ f.length) (v : ℕ) :
    v ∈ swapLastTwo f ↔ v ∈ f := (swapLastTwo_perm f h).mem_iff

theorem pickFlagged_map (g : List ℕ) (pred : ℕ → Bool) :
    pickFlagged g (g.map pred) = g.filter pred := by
  induction g with
  | nil => rfl
  | cons a t ih =>
      unfold pickFlagged at ih ⊢
      cases hpa : pred a
      · simp [List.zip_cons_cons, List.filter_cons, hpa, ih]
      · simp [List.zip_cons_cons, List.filter_cons, hpa, ih]

theorem count_true_map (g : List ℕ) (pred : ℕ → Bool) :
    (g.map pred).count true = g.countP pred := by
  induction g with
  | nil => rfl
  | cons a t ih =>
      rw [List.map_cons, List.count_cons, ih, List.countP_cons]
      by_cases h : pred a <;> simp [h]

/-- Facet validity: exactly `d` pairwise-distinct vertex indices, all
referring to positions in the input point array (`< n`). -/
def FaceOk (d n : ℕ) (f : List ℕ) : Prop :=
  f.length = d ∧ f.Nodup ∧ ∀ v ∈ f, v < n

/-- The main-loop invariant for facet validity: every face is valid, the
queue holds distinct in-range indices, and no face vertex is still in the
queue (queued points have never been inserted). -/
def ChInv (d n : ℕ) (st : HullState K) (queue : List ℕ) : Prop :=
  (∀ f ∈ st.faces, FaceOk d n f) ∧ queue.Nodup ∧ (∀ p ∈ queue, p < n) ∧
  (∀ f ∈ st.faces, ∀ v ∈ f, v ∉ queue)

theorem horizonOf_rows {d n : ℕ} (faces : List (List ℕ)) (flags : List Bool)
    (hfaces : ∀ f ∈ faces, FaceOk d n f) :
    ∀ hrow ∈ horizonOf d faces flags,
      hrow.length = d - 1 ∧ hrow.Nodup ∧ ∀ v ∈ hrow, v < n ∧ ∃ f ∈ faces, v ∈ f := by
  intro hrow hmem
  unfold horizonOf at hmem
  rw [List.mem_flatMap] at hmem
  obtain ⟨v, _, hv⟩ := hmem
  rw [List.mem_filterMap] at hv
  obtain ⟨t, ht, heq⟩ := hv
  set nonvis := ((List.range faces.length).filter (fun j => !(flags.getD j false))).map
    (fun j => faces.getD j []) with hnonvis
  by_cases hcnt : (ismember (nonvis.getD t [])
      (sort_int_asc (faces.getD v []))).count true = d - 1
  · rw [if_pos hcnt] at heq
    have hpick : hrow = pickFlagged (nonvis.getD t []) (ismember (nonvis.getD t [])
        (sort_int_asc (faces.getD v []))) := by
      exact (Option.some_inj.mp heq).symm
    have hg : nonvis.getD t [] ∈ faces := by
      have htl : t < nonvis.length := List.mem_range.mp ht
      have := getD_mem nonvis t [] htl
      rw [hnonvis, List.mem_map] at this
      obtain ⟨j, hj, hjeq⟩ := this
      rw [List.mem_filter, List.mem_range] at hj
      rw [← hjeq]
      exact getD_mem faces j [] hj.1
    have hgok := hfaces _ hg
    have hform : ismember (nonvis.getD t []) (sort_int_asc (faces.getD v [])) =
        (nonvis.getD t []).map (fun x => (sort_int_asc (faces.getD v [])).contains x) := rfl
    rw [hform] at hpick hcnt
    rw [pickFlagged_map] at hpick
    rw [count_true_map, List.countP_eq_length_filter] at hcnt
    subst hpick
    refine ⟨hcnt, List.Nodup.filter _ hgok.2.1, ?_⟩
    intro w hw
    have hwg : w ∈ nonvis.getD t [] := List.mem_of_mem_filter hw
    exact ⟨hgok.2.2 w hwg, nonvis.getD t [], hg, hwg⟩
  · rw [if_neg hcnt] at heq
    cases heq

theorem addFacesLoop_ok_prop (planeFn : List K → List K × K) (d : ℕ)
    (points : List (List K)) (i : ℕ) (P : List ℕ → Prop) :
    ∀ (rows : List (List ℕ)) (st st' : HullState K),
      addFacesLoop planeFn d points i rows st = .ok st' →
      (∀ hrow ∈ rows, P (hrow ++ [i])) → (∀ f ∈ st.faces, P f) →
      ∀ f ∈ st'.faces, P f := by
  intro rows
  induction rows with
  | nil =>
      intro st st' h hr hs
      rw [addFacesLoop] at h
      cases h
      exact hs
  | cons hrow rest ih =>
      intro st st' h hr hs
      rw [addFacesLoop] at h
      by_cases hc : (st.faces ++ [hrow ++ [i]]).length > CH_MAX_NUM_FACES
      · rw [if_pos hc] at h
        cases h
      · rw [if_neg hc] at h
        refine ih _ st' h (fun r2 hm => hr r2 (List.mem_cons_of_mem _ hm)) ?_
        intro f hf
        rcases List.mem_append.mp hf with hf | hf
        · exact hs f hf
        · rw [List.mem_singleton] at hf
          subst hf
          exact hr hrow (List.mem_cons_self _ _)

theorem orientOneFace_ok_prop (detFn : List K → K) (d : ℕ) (points : List (List K))
    (st st' : HullState K) (k : ℕ) (Q : List ℕ → Prop)
    (h : orientOneFace detFn d points st k = .ok st') (hk : k < st.faces.length)
    (hswap : ∀ f, Q f → Q (swapLastTwo f)) (hst : ∀ f ∈ st.faces, Q f) :
    ∀ f ∈ st'.faces, Q f := by
  unfold orientOneFace at h
  simp only [] at h
  split at h
  · cases h
  · split at h
    · split at h
      · cases h
      · cases h
        intro f hf
        rcases List.mem_or_eq_of_mem_set hf with hf | hf
        · exact hst f hf
        · subst hf
          exact hswap _ (hst _ (getD_mem st.faces k [] hk))
    · cases h
      exact hst

theorem orientLoop_ok_prop (detFn : List K → K) (d : ℕ) (points : List (List K))
    (Q : List ℕ → Prop) (hswap : ∀ f, Q f → Q (swapLastTwo f)) :
    ∀ (ks : List ℕ) (st st' : HullState K),
      orientLoop detFn d points ks st = .ok st' →
      (∀ k ∈ ks, k < st.faces.length) → (∀ f ∈ st.faces, Q f) →
      ∀ f ∈ st'.faces, Q f := by
  intro ks
  induction ks with
  | nil =>
      intro st st' h _ hst
      rw [orientLoop] at h
      cases h
      exact hst
  | cons k rest ih =>
      intro st st' h hks hst
      rw [orientLoop] at h
      rcases ho : orientOneFace detFn d points st k with e | st1
      · rw [ho] at h
        cases h
      · rw [ho] at h
        have hlen := orientOneFace_ok_length detFn d points st st1 k ho
        refine ih st1 st' h (fun k2 hk2 => ?_) ?_
        · rw [hlen]
          exact hks k2 (List.mem_cons_of_mem _ hk2)
        · exact orientOneFace_ok_prop detFn d points st st1 k Q ho
            (hks k (List.mem_cons_self _ _)) hswap hst

theorem processPoint_ok_inv (planeFn : List K → List K × K) (detFn : List K → K)
    (d n : ℕ) (points : List (List K)) (st st' : HullState K) (i : ℕ) (rest : List ℕ)
    (hd2 : 2 ≤ d) (hinv : ChInv d n st (i :: rest))
    (h : processPoint planeFn detFn d points st i = .ok st') :
    ChInv d n st' rest := by
  obtain ⟨hfaces, hqn, hql, hdisj⟩ := hinv
  have hrestn : rest.Nodup := hqn.of_cons
  have hrestl : ∀ p ∈ rest, p < n := fun p hp => hql p (List.mem_cons_of_mem _ hp)
  have hi_n : i < n := hql i (List.mem_cons_self _ _)
  have hi_rest : i ∉ rest := (List.nodup_cons.mp hqn).1
  unfold processPoint at h
  by_cases h0 : (visibleFlags d points st i).count true = 0
  · rw [if_pos h0] at h
    cases h
    exact ⟨hfaces, hrestn, hrestl,
      fun f hf v hv hc => hdisj f hf v hv (List.mem_cons_of_mem _ hc)⟩
  · rw [if_neg h0] at h
    simp only [] at h
    have hbase : ∀ f ∈ (survivors st (visibleFlags d points st i)).faces, f ∈ st.faces := by
      intro f hf
      unfold survivors keepIdx at hf
      rw [List.mem_map] at hf
      obtain ⟨j, hj, hjeq⟩ := hf
      rw [List.mem_filter, List.mem_range] at hj
      rw [← hjeq]
      exact getD_mem _ j [] hj.1
    have hswapQ : ∀ f, (FaceOk d n f ∧ ∀ v ∈ f, v ∉ rest) →
        (FaceOk d n (swapLastTwo f) ∧ ∀ v ∈ swapLastTwo f, v ∉ rest) := by
      rintro f ⟨⟨hlen, hnd, hlt⟩, hfr⟩
      have h2 : 2 ≤ f.length := by omega
      exact ⟨⟨(swapLastTwo_length f h2).trans hlen, swapLastTwo_nodup f h2 hnd,
        fun v hv => hlt v ((swapLastTwo_mem f h2 v).mp hv)⟩,
        fun v hv => hfr v ((swapLastTwo_mem f h2 v).mp hv)⟩
    have hQolds : ∀ f ∈ st.faces, (FaceOk d n f ∧ ∀ v ∈ f, v ∉ rest) := by
      intro f hf
      exact ⟨hfaces f hf, fun v hv hc => hdisj f hf v hv (List.mem_cons_of_mem _ hc)⟩
    have hQnew : ∀ hrow ∈ horizonOf d st.faces (visibleFlags d points st i),
        (FaceOk d n (hrow ++ [i]) ∧ ∀ v ∈ hrow ++ [i], v ∉ rest) := by
      intro hrow hmem
      obtain ⟨hlen, hnd, hprop⟩ := horizonOf_rows st.faces (visibleFlags d points st i)
        hfaces hrow hmem
      have hvold : ∀ v ∈ hrow, v < n ∧ v ∉ (i :: rest) := by
        intro v hv
        obtain ⟨hvn, f, hf, hvf⟩ := hprop v hv
        exact ⟨hvn, hdisj f hf v hvf⟩
      refine ⟨⟨?_, ?_, ?_⟩, ?_⟩
      · rw [List.length_append, hlen]
        simp
        omega
      · rw [List.nodup_append]
        refine ⟨hnd, List.nodup_singleton i, ?_⟩
        intro v hv hvi
        rw [List.mem_singleton] at hvi
        subst hvi
        exact (hvold v hv).2 (List.mem_cons_self _ _)
      · intro v hv
        rcases List.mem_append.mp hv with hv | hv
        · exact (hvold v hv).1
        · rw [List.mem_singleton] at hv
          subst hv
          exact hi_n
      · intro v hv
        rcases List.mem_append.mp hv with hv | hv
        · exact fun hc => (hvold v hv).2 (List.mem_cons_of_mem _ hc)
        · rw [List.mem_singleton] at hv
          subst hv
          exact hi_rest
    rcases ha : addFacesLoop planeFn d points i
        (horizonOf d st.faces (visibleFlags d points st i))
        (survivors st (visibleFlags d points st i)) with e | st1
    · rw [ha] at h
      cases h
    · rw [ha] at h
      simp only [] at h
      have hQ1 : ∀ f ∈ st1.faces, (FaceOk d n f ∧ ∀ v ∈ f, v ∉ rest) :=
        addFacesLoop_ok_prop planeFn d points i _ _ _ st1 ha hQnew
          (fun f hf => hQolds f (hbase f hf))
      rcases ho : orientLoop detFn d points
          ((List.range st1.faces.length).drop
            (survivors st (visibleFlags d points st i)).faces.length) st1 with e | st2
      · rw [ho] at h
        cases h
      · rw [ho] at h
        cases h
        have hks : ∀ k ∈ (List.range st1.faces.length).drop
            (survivors st (visibleFlags d points st i)).faces.length,
            k < st1.faces.length := by
          intro k hk
          exact List.mem_range.mp (List.drop_subset _ _ hk)
        have hQ2 := orientLoop_ok_prop detFn d points _ hswapQ _ st1 st' ho hks hQ1
        exact ⟨fun f hf => (hQ2 f hf).1, hrestn, hrestl, fun f hf v hv => (hQ2 f hf).2 v hv⟩

theorem chLoop_ok_faceOk (planeFn : List K → List K × K) (detFn : List K → K)
    (d n : ℕ) (points : List (List K)) (hd2 : 2 ≤ d) :
    ∀ (queue : List ℕ) (st st' : HullState K),
      ChInv d n st queue → chLoop planeFn detFn d points queue st = .ok st' →
      ∀ f ∈ st'.faces, FaceOk d n f := by
  intro queue
  induction queue with
  | nil =>
      intro st st' hinv h
      rw [chLoop] at h
      cases h
      exact hinv.1
  | cons i rest ih =>
      intro st st' hinv h
      rw [chLoop] at h
      rcases hp : processPoint planeFn detFn d points st i with e | st1
      · rw [hp] at h
        cases h
      · rw [hp] at h
        exact ih st1 st'
          (processPoint_ok_inv planeFn detFn d n points st st1 i rest hd2 hinv hp) h

theorem orientInit_prop (detFn : List K → K) (d : ℕ) (points : List (List K))
    (Q : List ℕ → Prop) (hswap : ∀ f, Q f → Q (swapLastTwo f)) :
    ∀ (l : List ℕ) (st : HullState K), (∀ k ∈ l, k < st.faces.length) →
      (∀ f ∈ st.faces, Q f) →
      ∀ f ∈ ((l.foldl (fun st k =>
        let v := detFn (detRowsA d points (st.faces.getD k []) k)
        if v < 0 then
          { faces := st.faces.set k (swapLastTwo (st.faces.getD k []))
            cf := st.cf.set k (negList (st.cf.getD k []))
            df := st.df.set k (-(st.df.getD k 0)) }
        else st) st : HullState K)).faces, Q f := by
  intro l
  induction l with
  | nil =>
      intro st _ hst
      exact hst
  | cons k rest ih =>
      intro st hks hst
      rw [List.foldl_cons]
      by_cases hv : detFn (detRowsA d points (st.faces.getD k []) k) < 0
      · rw [if_pos hv]
        refine ih _ (fun k2 hk2 => ?_) ?_
        · show k2 < (st.faces.set k (swapLastTwo (st.faces.getD k []))).length
          rw [List.length_set]
          exact hks k2 (List.mem_cons_of_mem _ hk2)
        · intro f hf
          rcases List.mem_or_eq_of_mem_set hf with hf | hf
          · exact hst f hf
          · subst hf
            exact hswap _ (hst _ (getD_mem st.faces k []
              (hks k (List.mem_cons_self _ _))))
      · rw [if_neg hv]
        exact ih st (fun k2 hk2 => hks k2 (List.mem_cons_of_mem _ hk2)) hst

theorem initFaces_ok (d : ℕ) :
    ∀ f ∈ initFaces d, f.length = d ∧ f.Nodup ∧ ∀ v ∈ f, v < d + 1 := by
  intro f hf
  unfold initFaces at hf
  rw [List.mem_map] at hf
  obtain ⟨i, hi, hieq⟩ := hf
  rw [List.mem_range] at hi
  subst hieq
  exact ⟨filter_range_ne_length (d + 1) i hi |>.trans (by omega),
    List.Nodup.filter _ (List.nodup_range _),
    fun v hv => List.mem_range.mp (List.mem_of_mem_filter hv)⟩

theorem buildQueue_perm (d n : ℕ) (points : List (List K)) (span : ℕ → K) :
    (buildQueue d n points span).Perm
      ((List.range (n - d - 1)).map (fun idx => idx + (d + 1))) := by
  unfold buildQueue
  refine List.Perm.map _ ?_
  have := sort_float_desc_idx_perm
    ((List.range (n - d - 1)).map (fun i => reldist d n points span i))
  simpa using this

theorem chEngine_init_inv (planeFn : List K → List K × K) (detFn : List K → K)
    (d n : ℕ) (points : List (List K)) (span : ℕ → K) (hd2 : 2 ≤ d) (hn : d + 1 ≤ n) :
    ChInv d n (orientInit detFn d points (simplexPlanes planeFn d points))
      (buildQueue d n points span) := by
  have hqperm := buildQueue_perm d n points span
  have hqmem : ∀ p ∈ buildQueue d n points span, d + 1 ≤ p ∧ p < n := by
    intro p hp
    have := hqperm.mem_iff.mp hp
    rw [List.mem_map] at this
    obtain ⟨idx, hidx, hideq⟩ := this
    rw [List.mem_range] at hidx
    subst hideq
    omega
  have hfin : ∀ f ∈ (orientInit detFn d points (simplexPlanes planeFn d points)).faces,
      f.length = d ∧ f.Nodup ∧ ∀ v ∈ f, v < d + 1 := by
    unfold orientInit
    refine orientInit_prop detFn d points _ ?_ _ _ ?_ ?_
    · rintro f ⟨hlen, hnd, hlt⟩
      have h2 : 2 ≤ f.length := by omega
      exact ⟨(swapLastTwo_length f h2).trans hlen, swapLastTwo_nodup f h2 hnd,
        fun v hv => hlt v ((swapLastTwo_mem f h2 v).mp hv)⟩
    · intro k hk
      show k < (simplexPlanes planeFn d points).faces.length
      unfold simplexPlanes initFaces
      simpa using List.mem_range.mp hk
    · exact initFaces_ok d
  refine ⟨?_, ?_, ?_, ?_⟩
  · intro f hf
    obtain ⟨hlen, hnd, hlt⟩ := hfin f hf
    exact ⟨hlen, hnd, fun v hv => lt_of_lt_of_le (hlt v hv) hn⟩
  · refine hqperm.nodup_iff.mpr ?_
    exact List.Nodup.map (fun a b => by omega) (List.nodup_range _)
  · exact fun p hp => (hqmem p hp).2
  · intro f hf v hv hvq
    have := (hfin f hf).2.2 v hv
    have := (hqmem v hvq).1
    omega

theorem chEngine_ok_faceOk (planeFn : List K → List K × K) (detFn : List K → K)
    (d n : ℕ) (points : List (List K)) (fs : List (List ℕ)) (cs : List (List K))
    (ds : List K) (hd2 : 2 ≤ d) (hn : d + 1 ≤ n)
    (h : chEngine planeFn detFn d n points = .ok fs cs ds) :
    ∀ f ∈ fs, FaceOk d n f := by
  unfold chEngine at h
  by_cases hspan : ((List.range d).any fun j => decide (spanAxis n points j < chSpanThresh)) = true
  · rw [if_pos hspan] at h
    cases h
  · rw [if_neg hspan] at h
    simp only [] at h
    rcases hl : chLoop planeFn detFn d points
        (buildQueue d n points fun j => spanAxis n points j)
        (orientInit detFn d points (simplexPlanes planeFn d points)) with e | st
    · rw [hl] at h
      rcases e with _ | _ <;> cases h
    · rw [hl] at h
      cases h
      exact chLoop_ok_faceOk planeFn detFn d n points hd2 _ _ st
        (chEngine_init_inv planeFn detFn d n points _ hd2 hn) hl

/-- C6: facet validity.  Every facet of a successful build consists of
exactly `d` pairwise-distinct point indices, each in `[0, n)` — indices
into the original input point array (the perturbed working rows are in 1-1
positional correspondence with the input rows, so the indices refer to the
original, unperturbed points).  Stated for the N-D builder (any `2 ≤ d`,
`n ≥ d+1`) and the 3-D builder (`n ≥ 4`); for smaller `n` the C code either
rejects the input or, at `nVert = 3` in 3-D, reads out of bounds (claim
C3). -/
theorem c6_facet_validity (sq : K → K) (r : ℕ → K) (inpts inverts : List K)
    (n n3 d : ℕ) (hd2 : 2 ≤ d) (hn : d + 1 ≤ n) (hn3 : 4 ≤ n3)
    (fs fs3 : List (List ℕ)) (cs cs3 : List (List K)) (ds ds3 : List K)
    (hnd : convhull_nd_build sq r inpts n d = .ok fs cs ds)
    (h3d : convhull_3d_build sq r inverts n3 = .ok fs3 cs3 ds3) :
    (∀ f ∈ fs, f.length = d ∧ f.Nodup ∧ ∀ v ∈ f, v < n) ∧
    (∀ f ∈ fs3, f.length = 3 ∧ f.Nodup ∧ ∀ v ∈ f, v < n3) := by
  constructor
  · unfold convhull_nd_build at hnd
    by_cases ha : ¬ d ≤ CONVHULL_ND_MAX_DIMENSIONS
    · rw [if_pos ha] at hnd
      cases hnd
    · rw [if_neg ha] at hnd
      rw [if_neg (by omega : ¬ n ≤ d)] at hnd
      exact chEngine_ok_faceOk _ _ d n _ fs cs ds hd2 hn hnd
  · unfold convhull_3d_build at h3d
    rw [if_neg (by omega : ¬ n3 < 3)] at h3d
    exact chEngine_ok_faceOk _ _ 3 n3 _ fs3 cs3 ds3 (by omega) (by omega) h3d

set_option maxRecDepth 100000 in
unseal Rat.add Rat.mul Rat.sub Rat.inv in
theorem c6_facet_validity_witness :
    convhull_nd_build (K := ℚ) (fun x => x) (fun _ => 0) [0, 0, 0, 1, 0, 0, 0, 1, 0, 0, 0, 1] 4 3 =
      .ok (facesOf (convhull_nd_build (K := ℚ) (fun x => x) (fun _ => 0)
            [0, 0, 0, 1, 0, 0, 0, 1, 0, 0, 0, 1] 4 3))
          (cfOf (convhull_nd_build (K := ℚ) (fun x => x) (fun _ => 0)
            [0, 0, 0, 1, 0, 0, 0, 1, 0, 0, 0, 1] 4 3))
          (dfOf (convhull_nd_build (K := ℚ) (fun x => x) (fun _ => 0)
            [0, 0, 0, 1, 0, 0, 0, 1, 0, 0, 0, 1] 4 3)) ∧
    (∀ f ∈ facesOf (convhull_3d_build (K := ℚ) (fun x => x) (fun _ => 0)
        [0, 0, 0, 1, 0, 0, 0, 1, 0, 0, 0, 1] 4),
      f.length = 3 ∧ f.Nodup ∧ ∀ v ∈ f, v < 4) := by
  have hok3 : convhull_3d_build (K := ℚ) (fun x => x) (fun _ => 0)
      [0, 0, 0, 1, 0, 0, 0, 1, 0, 0, 0, 1] 4 =
      .ok (facesOf (convhull_3d_build (K := ℚ) (fun x => x) (fun _ => 0)
            [0, 0, 0, 1, 0, 0, 0, 1, 0, 0, 0, 1] 4))
          (cfOf (convhull_3d_build (K := ℚ) (fun x => x) (fun _ => 0)
            [0, 0, 0, 1, 0, 0, 0, 1, 0, 0, 0, 1] 4))
          (dfOf (convhull_3d_build (K := ℚ) (fun x => x) (fun _ => 0)
            [0, 0, 0, 1, 0, 0, 0, 1, 0, 0, 0, 1] 4)) := by decide
  have hoknd : convhull_nd_build (K := ℚ) (fun x => x) (fun _ => 0)
      [0, 0, 0, 1, 0, 0, 0, 1, 0, 0, 0, 1] 4 3 =
      .ok (facesOf (convhull_nd_build (K := ℚ) (fun x => x) (fun _ => 0)
            [0, 0, 0, 1, 0, 0, 0, 1, 0, 0, 0, 1] 4 3))
          (cfOf (convhull_nd_build (K := ℚ) (fun x => x) (fun _ => 0)
            [0, 0, 0, 1, 0, 0, 0, 1, 0, 0, 0, 1] 4 3))
          (dfOf (convhull_nd_build (K := ℚ) (fun x => x) (fun _ => 0)
            [0, 0, 0, 1, 0, 0, 0, 1, 0, 0, 0, 1] 4 3)) := by decide
  exact ⟨hoknd, (c6_facet_validity (fun x => x) (fun _ => 0)
    [0, 0, 0, 1, 0, 0, 0, 1, 0, 0, 0, 1] [0, 0, 0, 1, 0, 0, 0, 1, 0, 0, 0, 1] 4 4 3
    (by norm_num) (by norm_num) (by norm_num) _ _ _ _ _ _ hoknd hok3).2⟩

set_option maxRecDepth 100000 in
unseal Rat.add Rat.mul Rat.sub Rat.inv in
/-- C5 (counterexample): at `nVert = 3` the two builders disagree.  The
3-D guard is `nVert < 3` (line 517), one short of the `n < d+1`
that the N-D builder uses (`nVert <= d`, line 1205): on three points that
span all axes the 3-D build passes its guard and the span check and builds
the initial simplex over the nonexistent point index 3, while the N-D build
with `d = 3` returns the empty result. -/
theorem c5_three_point_mismatch :
    convhull_3d_build (K := ℚ) (fun x => x) (fun _ => 0) [0, 0, 0, 1, 1, 0, 0, 1, 1] 3 ≠
      convhull_nd_build (K := ℚ) (fun x => x) (fun _ => 0) [0, 0, 0, 1, 1, 0, 0, 1, 1] 3 3 := by
  decide

/-- C5 (amended): for every input with `n ≠ 3` — the same coordinates, the
same perturbation draws, the same square-root function — the 3-D builder
and the N-D builder at `d = 3` produce exactly the same result: same facet
list, same order, same count, same success/failure outcome (the shared
pipeline even yields the same plane data, which the 3-D C function merely
discards).  For `n ≤ 2` both return the empty result; for `n ≥ 4` the two
bodies are the same pipeline with `plane_nd 3 = plane_3d` and the `d == 3`
determinant dispatch equal to `det_4x4`. -/
theorem c5_build3d_eq_ndbuild_d3 (sq : K → K) (r : ℕ → K) (inpts : List K) (n : ℕ)
    (hn : n ≠ 3) :
    convhull_3d_build sq r inpts n = convhull_nd_build sq r inpts n 3 := by
  have hplane : plane_nd sq 3 = plane_3d sq := funext (fun p => rfl)
  have hdet : detSelA (K := K) 3 = det_4x4 := funext (fun A => rfl)
  by_cases h3 : n < 3
  · rw [convhull_3d_build, convhull_nd_build, if_pos h3,
      if_neg (by norm_num [CONVHULL_ND_MAX_DIMENSIONS]), if_pos (by omega)]
  · rw [convhull_3d_build, convhull_nd_build, if_neg h3,
      if_neg (by norm_num [CONVHULL_ND_MAX_DIMENSIONS]), if_neg (by omega : ¬ n ≤ 3),
      hplane, hdet]

theorem c5_build3d_eq_ndbuild_d3_witness :
    (4 : ℕ) ≠ 3 ∧
    convhull_3d_build (K := ℚ) (fun x => x) (fun _ => 0) [0, 0, 0, 1, 0, 0, 0, 1, 0, 0, 0, 1] 4 =
      convhull_nd_build (K := ℚ) (fun x => x) (fun _ => 0)
        [0, 0, 0, 1, 0, 0, 0, 1, 0, 0, 0, 1] 4 3 :=
  ⟨by norm_num, c5_build3d_eq_ndbuild_d3 (fun x => x) (fun _ => 0)
    [0, 0, 0, 1, 0, 0, 0, 1, 0, 0, 0, 1] 4 (by norm_num)⟩

set_option maxRecDepth 100000 in
unseal Rat.add Rat.mul Rat.sub Rat.inv in
/-- C3 (code bug): the degenerate-input guard of the 3-D builder is `nVert < 3`
(line 517), not `nVert < d+1 = 4` — so with exactly 3 input points that
span all three axes, the build is NOT rejected before hull construction:
the early-exit and span checks both pass and the initial simplex is built
over point indices `0..3`, where index 3 does not exist (`n = 3`; in C
this is an out-of-bounds heap read, here the `getD` default row).  The
returned "hull" references the nonexistent point index `3 ≥ n`.  The N-D
builder guard (`nVert <= d`, line 1205) matches the claim. -/
theorem c3_three_point_guard_gap :
    (convhull_3d_build (K := ℚ) (fun x => x) (fun _ => 0) [0, 0, 0, 1, 1, 0, 0, 1, 1] 3 ≠
      .emptyInput) ∧
    (convhull_3d_build (K := ℚ) (fun x => x) (fun _ => 0) [0, 0, 0, 1, 1, 0, 0, 1, 1] 3 ≠
      .degenerate) ∧
    (((List.range 3).any (fun j => decide
      (spanAxis 3 (chPoints 3 3 ([0, 0, 0, 1, 1, 0, 0, 1, 1] : List ℚ) (fun _ => 0)) j <
        chSpanThresh))) = false) ∧
    ((facesOf (convhull_3d_build (K := ℚ) (fun x => x) (fun _ => 0)
      [0, 0, 0, 1, 1, 0, 0, 1, 1] 3)).any (fun f => f.contains 3) = true) := by
  refine ⟨?_, ?_, ?_, ?_⟩ <;> decide

theorem getD_map_range' {α : Type} (f : ℕ → α) (dflt : α) (n i : ℕ) (h : i < n) :
    ((List.range n).map f).getD i dflt = f i := by
  rw [List.getD_eq_getElem _ _ (by simpa using h), List.getElem_map]
  simp

/-- The lifted ("projected") points of `delaunay_nd_mesh`
(lines 1723-1735): row `i` holds the `nd` perturbed coordinates followed by
the sum of their squares (the paraboloid height `w`); the noise literal
`0.0000001` is the same `CH_NOISE_VAL` scale. -/
def dnProj (r : ℕ → K) (pts : List K) (nPoints nd : ℕ) : List (List K) :=
  (List.range nPoints).map (fun i =>
    (let row := (List.range nd).map (fun j =>
      pts.getD (i * nd + j) 0 + CH_NOISE_VAL * r (i * nd + j))
     row ++ [(row.map (fun x => x * x)).sum]))

/-- The hull of the lifted points (line 1740): `convhull_nd_build` on the
flattened rows with `d = nd + 1`; the builder continues drawing from the
same `rand()` stream, here offset by the `nPoints * nd` draws the lifting
consumed. -/
def dnBuild (sq : K → K) (r : ℕ → K) (pts : List K) (nPoints nd : ℕ) : BuildResult K :=
  convhull_nd_build sq (fun k => r (nPoints * nd + k)) ((dnProj r pts nPoints nd).flatten)
    nPoints (nd + 1)

/-- The lifted height coordinate of point `i`. -/
def dnHeights (r : ℕ → K) (pts : List K) (nPoints nd : ℕ) (i : ℕ) : K :=
  ((dnProj r pts nPoints nd).getD i []).getD nd 0

/-- The max-height scan (lines 1748-1760): `maxVal` starts at `-2.23e13`,
`maxW_idx` at `-1` (asserted `≠ -1` afterwards); first strict maximum
wins. -/
def dnMaxW (r : ℕ → K) (pts : List K) (nPoints nd : ℕ) : K × ℤ :=
  (List.range nPoints).foldl (fun acc i =>
    if dnHeights r pts nPoints nd i > acc.1 then (dnHeights r pts nPoints nd i, (i : ℤ)) else acc)
    (-chBig, -1)

def dnMaxWIdx (r : ℕ → K) (pts : List K) (nPoints nd : ℕ) : ℕ :=
  (dnMaxW r pts nPoints nd).2.toNat

/-- `w_optimal` (lines 1767-1772): the height-axis intercept of the plane
tangent to the paraboloid at the max-height point. -/
def dnWopt (r : ℕ → K) (pts : List K) (nPoints nd : ℕ) : K :=
  dnHeights r pts nPoints nd (dnMaxWIdx r pts nPoints nd) -
    ((List.range nd).map (fun j =>
      2 * (((dnProj r pts nPoints nd).getD (dnMaxWIdx r pts nPoints nd) []).getD j 0) ^ 2)).sum

/-- `w_optimal2` (line 1776): pushed down by `1000` times its absolute
value. -/
def dnWopt2 (r : ℕ → K) (pts : List K) (nPoints nd : ℕ) : K :=
  dnWopt r pts nPoints nd - 1000 * |dnWopt r pts nPoints nd|

/-- The synthetic viewpoint `p` (lines 1779-1780): all zeros except the
height coordinate `w_optimal2`. -/
def dnSynth (r : ℕ → K) (pts : List K) (nPoints nd : ℕ) : List K :=
  List.replicate nd 0 ++ [dnWopt2 r pts nPoints nd]

/-- `visible[i]` (lines 1796-1809): `dot(cf_i, p) + df_i`. -/
def dnVisVal (sq : K → K) (r : ℕ → K) (pts : List K) (nPoints nd : ℕ) (i : ℕ) : K :=
  dotd (nd + 1) ((cfOf (dnBuild sq r pts nPoints nd)).getD i []) (dnSynth r pts nPoints nd)
    + (dfOf (dnBuild sq r pts nPoints nd)).getD i 0

/-- Indices of the visible hull facets, in hull order. -/
def dnVisIdx (sq : K → K) (r : ℕ → K) (pts : List K) (nPoints nd : ℕ) : List ℕ :=
  (List.range (facesOf (dnBuild sq r pts nPoints nd)).length).filter
    (fun i => decide (dnVisVal sq r pts nPoints nd i > 0))

def dnVisibleCount (sq : K → K) (r : ℕ → K) (pts : List K) (nPoints nd : ℕ) : ℕ :=
  (dnVisIdx sq r pts nPoints nd).length

/-- C `delaunay_nd_mesh` (lines 1716-1836).  The outer `Option` is the C
exception/abort channel: `none` when the inner `convhull_nd_build` throws
(degenerate span, orientation failure) or an assert fires (`d > 5`, or
`maxW_idx == -1`, impossible for `nPoints ≥ 1`) — the function itself
signals nothing.  On a normal return the payload is
(`*Mesh` — `none` when `nVisible = 0` and the output pointer is never
written — and `*nMesh = nVisible`); the mesh rows are the visible hull
facets, compacted in hull order (lines 1811-1826). -/
def delaunay_nd_mesh (sq : K → K) (r : ℕ → K) (pts : List K) (nPoints nd : ℕ) :
    Option (Option (List (List ℕ)) × ℕ) :=
  if returnsNormally (dnBuild sq r pts nPoints nd) = true then
    if (dnMaxW r pts nPoints nd).2 = -1 then none
    else
      some (if 0 < dnVisibleCount sq r pts nPoints nd then
          some ((dnVisIdx sq r pts nPoints nd).map
            (fun i => (facesOf (dnBuild sq r pts nPoints nd)).getD i []))
        else none,
        dnVisibleCount sq r pts nPoints nd)
  else none

theorem list_sum_sq_nonneg (l : List K) : 0 ≤ (l.map (fun x => x * x)).sum := by
  induction l with
  | nil => simp
  | cons a t ih =>
      rw [List.map_cons, List.sum_cons]
      exact add_nonneg (mul_self_nonneg a) ih

theorem chBig_pos : (0 : K) < chBig := by
  rw [chBig]
  norm_num

theorem dnHeights_nonneg (r : ℕ → K) (pts : List K) (nPoints nd : ℕ) (i : ℕ)
    (h : i < nPoints) : 0 ≤ dnHeights r pts nPoints nd i := by
  unfold dnHeights dnProj
  rw [getD_map_range' _ _ _ _ h]
  simp only []
  rw [List.getD_append_right _ _ _ _ (by simp)]
  simp only [List.length_map, List.length_range]
  rw [show nd - nd = 0 from by omega]
  rw [List.getD_cons_zero]
  exact list_sum_sq_nonneg _

theorem dnMaxW_argmax (r : ℕ → K) (pts : List K) (nd : ℕ) :
    ∀ (nPoints : ℕ), 1 ≤ nPoints →
      0 ≤ (dnMaxW r pts nPoints nd).2 ∧
      (dnMaxW r pts nPoints nd).2.toNat < nPoints ∧
      (dnMaxW r pts nPoints nd).1 = dnHeights r pts nPoints nd (dnMaxW r pts nPoints nd).2.toNat ∧
      ∀ i, i < nPoints → dnHeights r pts nPoints nd i ≤ (dnMaxW r pts nPoints nd).1 := by
  have main : ∀ (h : ℕ → K) (n : ℕ), 1 ≤ n → (∀ i, i < n → -chBig < h i) →
      (0 ≤ ((List.range n).foldl (fun acc i =>
          if h i > acc.1 then (h i, (i : ℤ)) else acc) ((-chBig : K), (-1 : ℤ))).2 ∧
       ((List.range n).foldl (fun acc i =>
          if h i > acc.1 then (h i, (i : ℤ)) else acc) ((-chBig : K), (-1 : ℤ))).2.toNat < n ∧
       ((List.range n).foldl (fun acc i =>
          if h i > acc.1 then (h i, (i : ℤ)) else acc) ((-chBig : K), (-1 : ℤ))).1 =
         h ((List.range n).foldl (fun acc i =>
          if h i > acc.1 then (h i, (i : ℤ)) else acc) ((-chBig : K), (-1 : ℤ))).2.toNat ∧
       ∀ i, i < n → h i ≤ ((List.range n).foldl (fun acc i =>
          if h i > acc.1 then (h i, (i : ℤ)) else acc) ((-chBig : K), (-1 : ℤ))).1) := by
    intro h n
    induction n with
    | zero => omega
    | succ m ih =>
        intro _ hpos
        rw [List.range_succ, List.foldl_append, List.foldl_cons, List.foldl_nil]
        by_cases hm : 1 ≤ m
        · obtain ⟨ha, hb, hc, hd⟩ := ih hm (fun i hi => hpos i (by omega))
          by_cases hgt : h m > ((List.range m).foldl (fun acc i =>
              if h i > acc.1 then (h i, (i : ℤ)) else acc) ((-chBig : K), (-1 : ℤ))).1
          · rw [if_pos hgt]
            refine ⟨by omega, by simp, by simp, ?_⟩
            intro i hi
            rcases Nat.lt_succ_iff_lt_or_eq.mp hi with hi | hi
            · exact le_of_lt (lt_of_le_of_lt (hd i hi) hgt)
            · subst hi
              simp
          · rw [if_neg hgt]
            refine ⟨ha, by omega, hc, ?_⟩
            intro i hi
            rcases Nat.lt_succ_iff_lt_or_eq.mp hi with hi | hi
            · exact hd i hi
            · subst hi
              exact not_lt.mp hgt
        · have hm0 : m = 0 := by omega
          subst hm0
          rw [List.range_zero, List.foldl_nil]
          rw [if_pos (by simpa using hpos 0 (by omega))]
          refine ⟨by omega, by simp, by simp, ?_⟩
          intro i hi
          have : i = 0 := by omega
          subst this
          simp
  intro nPoints h1
  exact main (dnHeights r pts nPoints nd) nPoints h1
    (fun i hi => lt_of_lt_of_le (by simpa using chBig_pos (K := K))
      (dnHeights_nonneg r pts nPoints nd i hi))

theorem dotd_eq_sum (d : ℕ) (xs ys : List K) :
    dotd d xs ys = ∑ k ∈ Finset.range d, xs.getD k 0 * ys.getD k 0 := by
  unfold dotd
  rw [list_sum_map_range]

/-- C2: Delaunay reduction correctness.  For every call with at least one
point whose lifted hull build returns normally: (a) `maxW_idx` is in range
and the lifted height coordinate of every point is at most that of point
`maxW_idx`; (b) the synthetic viewpoint is `(0,...,0, w2)` with
`w2 = w_opt - 1000·|w_opt|` and `w_opt = w0 - Σⱼ 2·p0ⱼ²` for `(p0, w0)`
the lifted point `maxW_idx`; (c) the output mesh consists of exactly the
hull facets with `dot(normal, syntheticPoint) + offset > 0`, in hull
order, and `*nMesh` is their number (the mesh pointer is written only when
that number is positive). -/
theorem c2_delaunay_reduction (sq : K → K) (r : ℕ → K) (pts : List K) (nPoints nd : ℕ)
    (h1 : 1 ≤ nPoints)
    (hret : returnsNormally (dnBuild sq r pts nPoints nd) = true) :
    (dnMaxWIdx r pts nPoints nd < nPoints ∧
      ∀ i, i < nPoints →
        dnHeights r pts nPoints nd i ≤ dnHeights r pts nPoints nd (dnMaxWIdx r pts nPoints nd)) ∧
    (dnSynth r pts nPoints nd =
        List.replicate nd 0 ++ [dnWopt r pts nPoints nd - 1000 * |dnWopt r pts nPoints nd|] ∧
      dnWopt r pts nPoints nd =
        dnHeights r pts nPoints nd (dnMaxWIdx r pts nPoints nd) -
          ∑ j ∈ Finset.range nd,
            2 * (((dnProj r pts nPoints nd).getD (dnMaxWIdx r pts nPoints nd) []).getD j 0) ^ 2) ∧
    (delaunay_nd_mesh sq r pts nPoints nd =
      some (if 0 <
          (((List.range (facesOf (dnBuild sq r pts nPoints nd)).length).filter (fun i => decide
            (0 < (∑ j ∈ Finset.range (nd + 1),
                ((cfOf (dnBuild sq r pts nPoints nd)).getD i []).getD j 0 *
                  (dnSynth r pts nPoints nd).getD j 0) +
              (dfOf (dnBuild sq r pts nPoints nd)).getD i 0))).map
            (fun i => (facesOf (dnBuild sq r pts nPoints nd)).getD i [])).length then
          some (((List.range (facesOf (dnBuild sq r pts nPoints nd)).length).filter (fun i => decide
            (0 < (∑ j ∈ Finset.range (nd + 1),
                ((cfOf (dnBuild sq r pts nPoints nd)).getD i []).getD j 0 *
                  (dnSynth r pts nPoints nd).getD j 0) +
              (dfOf (dnBuild sq r pts nPoints nd)).getD i 0))).map
            (fun i => (facesOf (dnBuild sq r pts nPoints nd)).getD i []))
        else none,
        ((List.range (facesOf (dnBuild sq r pts nPoints nd)).length).filter (fun i => decide
          (0 < (∑ j ∈ Finset.range (nd + 1),
              ((cfOf (dnBuild sq r pts nPoints nd)).getD i []).getD j 0 *
                (dnSynth r pts nPoints nd).getD j 0) +
            (dfOf (dnBuild sq r pts nPoints nd)).getD i 0))).length)) := by
  obtain ⟨ha, hb, _, hd⟩ := dnMaxW_argmax r pts nd nPoints h1
  have hfilter : ((List.range (facesOf (dnBuild sq r pts nPoints nd)).length).filter
      (fun i => decide (dnVisVal sq r pts nPoints nd i > 0))) =
      ((List.range (facesOf (dnBuild sq r pts nPoints nd)).length).filter (fun i => decide
        (0 < (∑ j ∈ Finset.range (nd + 1),
            ((cfOf (dnBuild sq r pts nPoints nd)).getD i []).getD j 0 *
              (dnSynth r pts nPoints nd).getD j 0) +
          (dfOf (dnBuild sq r pts nPoints nd)).getD i 0))) := by
    refine List.filter_congr (fun i _ => ?_)
    have : dnVisVal sq r pts nPoints nd i =
        (∑ j ∈ Finset.range (nd + 1),
          ((cfOf (dnBuild sq r pts nPoints nd)).getD i []).getD j 0 *
            (dnSynth r pts nPoints nd).getD j 0) +
        (dfOf (dnBuild sq r pts nPoints nd)).getD i 0 := by
      unfold dnVisVal
      rw [dotd_eq_sum]
    rw [this]
  refine ⟨⟨hb, fun i hi => ?_⟩, ⟨rfl, ?_⟩, ?_⟩
  · have := hd i hi
    unfold dnMaxWIdx
    rw [(dnMaxW_argmax r pts nd nPoints h1).2.2.1] at this
    exact this
  · unfold dnWopt
    rw [list_sum_map_range]
  · unfold delaunay_nd_mesh
    rw [if_pos hret, if_neg (by omega : ¬ (dnMaxW r pts nPoints nd).2 = -1)]
    unfold dnVisibleCount dnVisIdx
    rw [hfilter]
    congr 1
    rw [List.length_map]

set_option maxRecDepth 100000 in
unseal Rat.add Rat.mul Rat.sub Rat.inv in
theorem c2_delaunay_reduction_witness :
    ((1 : ℕ) ≤ 1 ∧
      returnsNormally (dnBuild (K := ℚ) (fun x => x) (fun _ => 0) [0] 1 1) = true) ∧
    (dnMaxWIdx (K := ℚ) (fun _ => 0) [0] 1 1 < 1 ∧
      ∀ i, i < 1 → dnHeights (K := ℚ) (fun _ => 0) [0] 1 1 i ≤
        dnHeights (K := ℚ) (fun _ => 0) [0] 1 1 (dnMaxWIdx (K := ℚ) (fun _ => 0) [0] 1 1)) ∧
    delaunay_nd_mesh (K := ℚ) (fun x => x) (fun _ => 0) [0] 1 1 = some (none, 0) := by
  have h1 : (1 : ℕ) ≤ 1 := le_refl 1
  have hret : returnsNormally (dnBuild (K := ℚ) (fun x => x) (fun _ => 0) [0] 1 1) = true := by
    decide
  have hmain := c2_delaunay_reduction (fun x => x) (fun _ => 0) [0] 1 1 h1 hret
  refine ⟨⟨h1, hret⟩, hmain.1, ?_⟩
  rw [hmain.2.2]
  decide

/-- C10 (implicit): whenever zero facets are classified visible — in
particular whenever the lifted-hull build fails through a path that
returns normally (`nVert ≤ d` empty input, or the resource ceiling) and so
reports zero hull facets — `delaunay_nd_mesh` returns normally with
`*nMesh = 0` and without ever writing `*Mesh` (payload `(none, 0)`),
signalling no error to the caller.  (The span-degenerate and
orientation-failure paths instead `throw` out of the builder, so the
delaunay call never returns at all — the outer `none`.) -/
theorem c10_delaunay_zero_visible (sq : K → K) (r : ℕ → K) (pts : List K)
    (nPoints nd : ℕ) (h1 : 1 ≤ nPoints) :
    (returnsNormally (dnBuild sq r pts nPoints nd) = true →
      dnVisibleCount sq r pts nPoints nd = 0 →
      delaunay_nd_mesh sq r pts nPoints nd = some (none, 0)) ∧
    ((dnBuild sq r pts nPoints nd = .emptyInput ∨ dnBuild sq r pts nPoints nd = .resource) →
      delaunay_nd_mesh sq r pts nPoints nd = some (none, 0)) := by
  obtain ⟨ha, _, _, _⟩ := dnMaxW_argmax r pts nd nPoints h1
  have hfirst : returnsNormally (dnBuild sq r pts nPoints nd) = true →
      dnVisibleCount sq r pts nPoints nd = 0 →
      delaunay_nd_mesh sq r pts nPoints nd = some (none, 0) := by
    intro hret hvis
    unfold delaunay_nd_mesh
    rw [if_pos hret, if_neg (by omega : ¬ (dnMaxW r pts nPoints nd).2 = -1), hvis]
    simp
  refine ⟨hfirst, ?_⟩
  intro hfail
  have hret : returnsNormally (dnBuild sq r pts nPoints nd) = true := by
    rcases hfail with h | h <;> rw [h] <;> rfl
  have hfaces : facesOf (dnBuild sq r pts nPoints nd) = [] := by
    rcases hfail with h | h <;> rw [h] <;> rfl
  have hvis : dnVisibleCount sq r pts nPoints nd = 0 := by
    unfold dnVisibleCount dnVisIdx
    rw [hfaces]
    rfl
  exact hfirst hret hvis

set_option maxRecDepth 100000 in
unseal Rat.add Rat.mul Rat.sub Rat.inv in
theorem c10_delaunay_zero_visible_witness :
    ((1 : ℕ) ≤ 1 ∧ dnBuild (K := ℚ) (fun x => x) (fun _ => 0) [0] 1 1 = .emptyInput) ∧
    delaunay_nd_mesh (K := ℚ) (fun x => x) (fun _ => 0) [0] 1 1 = some (none, 0) := by
  have hfail : dnBuild (K := ℚ) (fun x => x) (fun _ => 0) [0] 1 1 = .emptyInput := by decide
  exact ⟨⟨le_refl 1, hfail⟩,
    (c10_delaunay_zero_visible (fun x => x) (fun _ => 0) [0] 1 1 (le_refl 1)).2 (Or.inl hfail)⟩

end Convhull
